import Mathlib

/-!
Shallow embedding of the NatSys Lab / Tempesta DB burst hash trie
(`src/htrie/htrie.c`, `src/htrie/htrie.h`) and proofs about it.

Embedding conventions:

* Machine words are `Nat`; all bit manipulation uses `&&&`, `|||`, `^^^`,
  `Nat.testBit` and explicit powers of two.  The collision map `col_map` is a
  64-bit word; a "bit" variable in the C code denotes a bit index and the C
  idioms `map & bit` / `map |= bit` denote the test/set of that bit index
  (`testBit` / `||| 2 ^ bit` here).
* Memory is modelled as association lists from byte offsets to objects
  (index nodes, buckets); pointers are byte offsets.  `TDB_PTR`/`TDB_OFF`
  are the identity on offsets.
* Kernel assertions (`BUG_ON`) and dereferences of addresses that hold no
  object are modelled as `Except` errors (`Violation`).
* The repository ships only `htrie.c`/`htrie.h`; the companion headers
  (`tdb.h`, `alloc.h`, `kernel_mocks.h`) are absent.  Everything taken from
  them (constants, `flz`, the block/extent allocator, structure sizes) is
  modelled from the specification and marked `Modelled from the spec:` in
  its doc comment.  The allocator is a deterministic supply of offsets; an
  empty supply models an allocation failure.
-/

namespace Htrie

/-- Bits of an unsigned long on the 64-bit platform (`BITS_PER_LONG`). -/
def BITS_PER_LONG : Nat := 64

/-- Key slice width per trie level (`TDB_HTRIE_BITS`, htrie.h). -/
def TDB_HTRIE_BITS : Nat := 4

/-- Fanout of a non-root index node (`TDB_HTRIE_FANOUT = 1 << TDB_HTRIE_BITS`). -/
def TDB_HTRIE_FANOUT : Nat := 16

/-- Key mask for one slice (`TDB_HTRIE_KMASK = TDB_HTRIE_FANOUT - 1`). -/
def TDB_HTRIE_KMASK : Nat := 15

/-- Data-pointer flag bit in a stored reference (`TDB_HTRIE_DBIT = 1 << 31`). -/
def TDB_HTRIE_DBIT : Nat := 2 ^ 31

/-- Cache line size (`L1_CACHE_BYTES`); index node size (`TDB_HTRIE_NODE_SZ`). -/
def TDB_HTRIE_NODE_SZ : Nat := 64

/-- Minimal data record unit, two cache lines (`TDB_HTRIE_MINDREC`, htrie.h). -/
def TDB_HTRIE_MINDREC : Nat := 128

/-- Byte offset to data-block index (`TDB_O2DI`, htrie.h). -/
def TDB_O2DI (o : Nat) : Nat := o / TDB_HTRIE_MINDREC

/-- Data-block index to byte offset (`TDB_DI2O`, htrie.h). -/
def TDB_DI2O (i : Nat) : Nat := i * TDB_HTRIE_MINDREC

/-- Index-block index to byte offset (`TDB_II2O`, htrie.h). -/
def TDB_II2O (i : Nat) : Nat := i * TDB_HTRIE_NODE_SZ

/-- Byte offset to index-block index (`TDB_O2II`, htrie.h). -/
def TDB_O2II (o : Nat) : Nat := o / TDB_HTRIE_NODE_SZ

/-- Modelled from the spec: `TDB_I2O` from the absent `tdb.h`.  Spec section
4.1: data/bucket offsets are measured in `MINDREC` units, and
`tdb_htrie_descend` uses `TDB_I2O` to turn a stored data reference into the
byte offset of the bucket, so the conversion is `i * TDB_HTRIE_MINDREC`. -/
def TDB_I2O (i : Nat) : Nat := i * TDB_HTRIE_MINDREC

/-- Key slice selector (`TDB_HTRIE_IDX(k, b) = (k >> b) & TDB_HTRIE_KMASK`). -/
def TDB_HTRIE_IDX (k b : Nat) : Nat := (k >>> b) &&& TDB_HTRIE_KMASK

/-- All key bits consumed (`TDB_HTRIE_RESOLVED(b) = (b + 4 > BITS_PER_LONG)`). -/
def TDB_HTRIE_RESOLVED (b : Nat) : Bool := BITS_PER_LONG < b + TDB_HTRIE_BITS

/-- Modelled from the spec: `TDB_HTRIE_COLL_MAX` from the absent `tdb.h`.
The bucket holds up to `COLL_MAX ≤ 63` slots (spec section 3) and
`BUILD_BUG_ON(TDB_HTRIE_COLL_MAX > BITS_PER_LONG - 1)`; with the bit-slot
mapping `bit = COLL_MAX - slot` and the slot-0 bit being the forced
most-significant bit of `col_map`, the value is `BITS_PER_LONG - 1`. -/
def TDB_HTRIE_COLL_MAX : Nat := 63

/-- Modelled from the spec: `TDB_HTRIE_BURST_MIN_BITS` from the absent
`tdb.h`.  A bucket is full when the found free bit index falls below this
threshold (spec sections 3 and 8 use the value 2). -/
def TDB_HTRIE_BURST_MIN_BITS : Nat := 2

/-- Modelled from the spec: `TDB_HTRIE_BCKT_SLOTS_N` from the absent
`tdb.h`: number of record slots in a bucket.  Chosen as
`COLL_MAX - BURST_MIN_BITS + 1` so that every claimable bit index
`≥ BURST_MIN_BITS` maps to a valid slot (spec: the find-zero operation
always yields a valid slot). -/
def TDB_HTRIE_BCKT_SLOTS_N : Nat := 62

/-- Modelled from the spec: `flz` from the absent `kernel_mocks.h`: the
index of the most significant zero bit of a 64-bit word (the `bsr`
instruction on the complement, see the comment in `tdb_htrie_init_bucket`).
With the mapping `bit = COLL_MAX - slot` this finds the lowest free slot.
Returns 64 when the word has no zero bit (hardware result undefined);
this never happens because no more than `COLL_MAX` bits are ever set. -/
def flz (x : Nat) : Nat :=
  (((List.range 64).filter (fun i => ! x.testBit i)).getLast?).getD 64

/-- Bit index to slot index (`__htrie_bckt_bit2slot`, htrie.c). -/
def __htrie_bckt_bit2slot (bit : Nat) : Nat := TDB_HTRIE_COLL_MAX - bit

/-- Slot index to bit index (`__htrie_bckt_slot2bit`, htrie.c). -/
def __htrie_bckt_slot2bit (slot : Nat) : Nat := TDB_HTRIE_COLL_MAX - slot

/-- Bucket-full test (`tdb_htrie_bckt_burst_threshold`, htrie.c). -/
def tdb_htrie_bckt_burst_threshold (bit : Nat) : Bool :=
  bit < TDB_HTRIE_BURST_MIN_BITS

/-- Modelled from the spec: `sizeof(TdbHtrieBucket)` — the bucket header
holds the 64-bit `col_map` and the 64-bit free-list link `next`. -/
def sizeofTdbHtrieBucket : Nat := 16

/-- Modelled from the spec: `sizeof(TdbFRec)` — a slot's record metadata
holds the 64-bit key and the 64-bit data offset (spec section 3). -/
def sizeofTdbFRec : Nat := 16

/-- Modelled from the spec: `sizeof(TdbVRec)` — the variable-record header
holds the 32-bit `chunk_next` and the 32-bit `len` (spec section 3). -/
def sizeofTdbVRec : Nat := 8

/-- Modelled from the spec: `TDB_BLK_SZ` from the absent `alloc.h` — the
4KB block size (spec: "4KB chunks (blocks) are returned to the block
allocator"). -/
def TDB_BLK_SZ : Nat := 4096

/-- Modelled from the spec: `TDB_MAX_SHARD_SZ` from the absent `tdb.h` —
"the maximum size of one database table is 128GB" (htrie.h comment). -/
def TDB_MAX_SHARD_SZ : Nat := 2 ^ 37

/-- Bucket memory size (`tdb_htrie_bckt_sz`, htrie.c): header plus
`(COLL_MAX - BURST_MIN_BITS)` records, each record extended by `rec_len`
for an inplace database. -/
def tdb_htrie_bckt_sz (inplace : Bool) (rec_len : Nat) : Nat :=
  sizeofTdbHtrieBucket +
    (TDB_HTRIE_COLL_MAX - TDB_HTRIE_BURST_MIN_BITS) *
      (sizeofTdbFRec + rec_len * (if inplace then 1 else 0))

/-- Size-class freelist selection (`__htrie_dcache`, htrie.c).  `varlen`
is `TDB_HTRIE_VARLENRECS(dbh)`, i.e. `rec_len == 0` (htrie.h).  Note that
a variable-length database short-circuits to freelist 0 for every size;
the size ladder is reachable only when `rec_len > 0`. -/
def __htrie_dcache (varlen : Bool) (sz : Nat) : Option Nat :=
  if varlen then some 0
  else if sz ≤ 256 then some 0
  else if sz ≤ 512 then some 2
  else if sz ≤ 1024 then some 3
  else if sz ≤ 2048 then some 4
  else none

/-- Assertion failures (`BUG_ON`) and undefined dereferences of the C
code, surfaced as errors of the embedding. -/
inductive Violation where
  /-- `BUG_ON(*bits > 0)` at the entry of `tdb_htrie_descend`. -/
  | bitsNonzero
  /-- `BUG_ON(!o)` — a reference decoded to offset zero. -/
  | zeroRef
  /-- `BUG_ON(TDB_HTRIE_RESOLVED(..))`. -/
  | resolvedHit
  /-- `BUG_ON(fr->key)` in `tdb_htrie_create_rec`. -/
  | keyNonzero
  /-- `BUG_ON(len != dbh->rec_len)` in `tdb_htrie_create_rec`. -/
  | lenMismatch
  /-- `BUG_ON(!data && !(dbh->flags & TDB_F_INPLACE))`. -/
  | noData
  /-- `BUG_ON(bits < TDB_HTRIE_BITS)` in `tdb_htrie_insert`. -/
  | burstBelowRoot
  /-- `BUG_ON(tdb_htrie_bckt_burst_threshold(bit))` in `__htrie_bckt_copy_metadata`. -/
  | thresholdHit
  /-- `BUG_ON(size != TDB_BLK_SZ)` in `tdb_htrie_free_data`. -/
  | blkSize
  /-- Dereference of an address at which the state holds no object. -/
  | wildPointer
  /-- Fuel of the embedding exhausted (no corresponding program event). -/
  | fuel
deriving Repr, DecidableEq

/-- Shorthand for computations that can trip a kernel assertion. -/
abbrev M (α : Type) := Except Violation α

/-- Destination of a reclaimed data chunk in `tdb_htrie_free_data`. -/
inductive FreeDest where
  /-- Pushed onto size-class freelist `dcache[i]`. -/
  | dcache (i : Nat)
  /-- Returned to the block allocator via `tdb_free_blk`. -/
  | blk
deriving Repr, DecidableEq

/-- Chunk reclamation routing (`tdb_htrie_free_data`, htrie.c): push onto
the selected size-class freelist, or return the chunk to the block
allocator (asserting it is exactly one block). -/
def tdb_htrie_free_data (varlen : Bool) (size : Nat) : M FreeDest :=
  match __htrie_dcache varlen size with
  | some i => .ok (.dcache i)
  | none => if size = TDB_BLK_SZ then .ok .blk else .error .blkSize

/-- Parameter validation of `tdb_init_mapping` (htrie.c): `true` iff the
function reaches the success return for a fresh mapping.  The per-CPU
allocation at the end is external and modelled as succeeding. -/
def tdb_init_mapping_ok (db_size root_bits rec_len : Nat)
    (inplace : Bool) : Bool :=
  if TDB_MAX_SHARD_SZ < db_size then false
  else if TDB_BLK_SZ / 2 < rec_len then false
  else if root_bits &&& (2 ^ 64 - (TDB_HTRIE_BITS + 1)) ≠ 0 ∨
          root_bits < TDB_HTRIE_BITS then false
  else if inplace ∧ rec_len = 0 then false
  else if inplace ∧ TDB_BLK_SZ < tdb_htrie_bckt_sz inplace rec_len then false
  else true

/-- Validity of init parameters as the specification words them (spec
section 6 / claim C4): fails exactly when the size bounds are exceeded,
`root_bits` is below 4 or not a multiple of 4, or the inplace conditions
are violated.  This definition follows the spec, for comparison with
`tdb_init_mapping_ok` which follows the code. -/
def spec_init_valid (db_size root_bits rec_len : Nat)
    (inplace : Bool) : Bool :=
  db_size ≤ TDB_MAX_SHARD_SZ ∧ rec_len ≤ TDB_BLK_SZ / 2 ∧
  root_bits % 4 = 0 ∧ 4 ≤ root_bits ∧
  (inplace → rec_len ≠ 0 ∧ tdb_htrie_bckt_sz inplace rec_len ≤ TDB_BLK_SZ)

/-- Population count of a 64-bit word. -/
def popcount64 (x : Nat) : Nat :=
  ((List.range 64).filter (fun i => x.testBit i)).length

/-- Modelled from the spec: `TDB_HTRIE_SLOT2BIT` from the absent `tdb.h`.
`__htrie_insert_new_bckt` publishes a fresh bucket whose map has "only the
top `col_map` bit plus slot-0 bit" set (spec section 4.5 step 3a); with
`bit = COLL_MAX - slot` the slot-0 bit is bit `COLL_MAX`, the forced
most-significant bit, so the macro is the one-hot mask of its argument. -/
def TDB_HTRIE_SLOT2BIT (s : Nat) : Nat := 2 ^ s

/-- Record metadata held in one bucket slot: the key and the data offset
(`TdbFRec {key, off}`; spec section 3).  For an inplace database the slot
holds the record itself and the `off` field models its copied payload. -/
structure TdbRec where
  key : Nat
  off : Nat
deriving Repr, DecidableEq

/-- Bucket (`TdbHtrieBucket`): 64-bit occupancy bitmap `col_map`, free-list
link `next`, and the embedded slot array (modelled as a list indexed by
slot number). -/
structure TdbHtrieBucket where
  col_map : Nat
  next : Nat
  recs : List TdbRec
deriving Repr, DecidableEq

/-- The whole mapped database region plus the allocator contract.  Memory
is an association list from byte offsets to objects.  The allocator
(absent `alloc.c`) is modelled from the spec as deterministic supplies of
offsets; an exhausted supply is an allocation failure, and a rollback
pushes the offset back. -/
structure TdbState where
  /-- root node fanout exponent (`dbh->root_bits`) -/
  root_bits : Nat
  /-- `dbh->flags & TDB_F_INPLACE` -/
  inplace : Bool
  /-- `dbh->rec_len`; 0 means variable-length records -/
  rec_len : Nat
  /-- root index node: `2 ^ root_bits` reference slots -/
  root : List Nat
  /-- inner index nodes: byte offset to 16 reference slots -/
  nodes : List (Nat × List Nat)
  /-- buckets: byte offset to bucket -/
  buckets : List (Nat × TdbHtrieBucket)
  /-- data area: byte offset to variable-record header `(chunk_next, len)`;
      unmapped offsets read as zeroed fresh memory -/
  vheap : List (Nat × (Nat × Nat))
  /-- per-CPU free bucket queue head offset (`p->free_bckt_h`, 0 = empty) -/
  free_bckt_h : Nat
  /-- per-CPU free bucket queue tail offset (`p->free_bckt_t`) -/
  free_bckt_t : Nat
  /-- offsets the fixed-size allocator will grant for buckets -/
  bckt_supply : List Nat
  /-- offsets the fixed-size allocator will grant for index nodes -/
  idx_supply : List Nat
  /-- `(offset, granted length)` pairs the data allocator will grant -/
  data_supply : List (Nat × Nat)
  /-- `(address, size)` arguments of every `tdb_htrie_free_data` call -/
  freed_data : List (Nat × Nat)
  /-- diagnostic counter `g_burst_collision_no_mem` -/
  burst_collision_no_mem : Nat
deriving Repr, DecidableEq

/-- Variable-length record database (`TDB_HTRIE_VARLENRECS`, htrie.h). -/
def TDB_HTRIE_VARLENRECS (s : TdbState) : Bool := s.rec_len = 0

/-- Association list lookup (memory read at an offset). -/
def alookup {α : Type} (l : List (Nat × α)) (k : Nat) : Option α :=
  (l.find? (fun p => p.1 == k)).map (fun p => p.2)

/-- Association list update of an existing key (memory write). -/
def aset {α : Type} (l : List (Nat × α)) (k : Nat) (v : α) : List (Nat × α) :=
  l.map (fun p => if p.1 == k then (k, v) else p)

/-- Read the bucket at a byte offset. -/
def bucketAt (s : TdbState) (off : Nat) : Option TdbHtrieBucket :=
  alookup s.buckets off

/-- Write the bucket at a byte offset. -/
def setBucket (s : TdbState) (off : Nat) (b : TdbHtrieBucket) : TdbState :=
  { s with buckets := aset s.buckets off b }

/-- Read the variable-record header at a data offset (fresh memory is
zeroed). -/
def vheapAt (s : TdbState) (off : Nat) : Nat × Nat :=
  (alookup s.vheap off).getD (0, 0)

/-- Offset of the record slot `slot` inside the bucket at `boff`
(`__htrie_bckt_rec`: `(TdbRec *)(b + 1) + slot`). -/
def __htrie_bckt_rec_off (boff slot : Nat) : Nat :=
  boff + sizeofTdbHtrieBucket + sizeofTdbFRec * slot

/-- Bucket header initialization (`tdb_htrie_init_bucket`, htrie.c): the
collision map and the free-list link are cleared; the slot array (recycled
memory) is untouched. -/
def tdb_htrie_init_bucket (b : TdbHtrieBucket) : TdbHtrieBucket :=
  { b with col_map := 0, next := 0 }

/-- Fresh zeroed bucket object for memory newly granted by the allocator
(a fresh mapping reads as zeroes). -/
def freshBucket : TdbHtrieBucket :=
  { col_map := 0, next := 0, recs := List.replicate TDB_HTRIE_BCKT_SLOTS_N ⟨0, 0⟩ }

/-- Bucket allocation (`tdb_htrie_alloc_bucket`, htrie.c): pop the per-CPU
reclamation queue first, else take an offset from the fixed-size
allocator; either way the header is (re)initialized.  `none` models the
allocation failure caught by the callers' NULL checks. -/
def tdb_htrie_alloc_bucket (s : TdbState) : M (Option (TdbState × Nat)) :=
  if s.free_bckt_h ≠ 0 then
    match bucketAt s s.free_bckt_h with
    | none => .error .wildPointer
    | some b =>
      let off := s.free_bckt_h
      let t := if b.next = 0 then 0 else s.free_bckt_t
      let s := { s with free_bckt_h := b.next, free_bckt_t := t }
      .ok (some (setBucket s off (tdb_htrie_init_bucket b), off))
  else
    match s.bckt_supply with
    | [] => .ok none
    | off :: rest =>
      let s := { s with bckt_supply := rest }
      match bucketAt s off with
      | some b => .ok (some (setBucket s off (tdb_htrie_init_bucket b), off))
      | none =>
        .ok (some ({ s with buckets := (off, freshBucket) :: s.buckets }, off))

/-- Undo the latest bucket allocation (`tdb_htrie_rollback_bucket` via
`tdb_alloc_rollback`): the offset is handed back to the allocator. -/
def tdb_htrie_rollback_bucket (s : TdbState) (off : Nat) : TdbState :=
  { s with bckt_supply := off :: s.bckt_supply }

/-- Push a bucket onto the per-CPU reclamation queue
(`tdb_htrie_reclaim_bucket`, htrie.c): link it after the tail, or make it
the queue head. -/
def tdb_htrie_reclaim_bucket (s : TdbState) (off : Nat) : M TdbState :=
  if s.free_bckt_t ≠ 0 then
    match bucketAt s s.free_bckt_t with
    | none => .error .wildPointer
    | some last =>
      .ok { setBucket s s.free_bckt_t { last with next := off } with
            free_bckt_t := off }
  else
    .ok { s with free_bckt_h := off, free_bckt_t := off }

/-- Index node allocation (`tdb_htrie_alloc_index`, htrie.c): take an
offset from the fixed-size allocator and zero the node. -/
def tdb_htrie_alloc_index (s : TdbState) : Option (TdbState × Nat) :=
  match s.idx_supply with
  | [] => none
  | off :: rest =>
    let ns := (off, List.replicate TDB_HTRIE_FANOUT 0) :: s.nodes
    some ({ s with idx_supply := rest, nodes := ns }, off)

/-- Undo the latest index allocation (`tdb_htrie_rollback_index`). -/
def tdb_htrie_rollback_index (s : TdbState) (off : Nat) : TdbState :=
  { s with idx_supply := off :: s.idx_supply }

/-- Data chunk allocation (`tdb_htrie_alloc_data`, htrie.c): the dcache
fast path is modelled with empty pools, so the external allocator grants
`(offset, actual length)` from the supply; `none` is failure. -/
def tdb_htrie_alloc_data (s : TdbState) : Option (TdbState × Nat × Nat) :=
  match s.data_supply with
  | [] => none
  | (off, granted) :: rest =>
    some ({ s with data_supply := rest }, off, granted)

/-- Undo the latest data allocation (`tdb_htrie_rollback_data`). -/
def tdb_htrie_rollback_data (s : TdbState) (off len : Nat) : TdbState :=
  { s with data_supply := (off, len) :: s.data_supply }

/-- Branch of `tdb_htrie_create_rec` (htrie.c) taken at a data-area offset
(`!TDB_F_INPLACE`): assert the data pointer is present, and for a
variable-length database assert the chunk header is clean and write
`{chunk_next = 0, len}`; the payload copy is abstract. -/
def tdb_htrie_create_rec_data (s : TdbState) (off : Nat)
    (data : Option Nat) (len : Nat) : M TdbState :=
  if data.isNone then .error .noData
  else if TDB_HTRIE_VARLENRECS s then
    if vheapAt s off ≠ (0, 0) then .error .zeroRef
    else .ok { s with vheap := (off, (0, len)) :: s.vheap }
  else .ok s

/-- Branch of `tdb_htrie_create_rec` (htrie.c) taken for `TDB_F_INPLACE`
at a bucket slot: `BUG_ON(fr->key)`, `BUG_ON(len != dbh->rec_len)`, then
the key is stored and the payload copied (modelled in the `off` field). -/
def tdb_htrie_create_rec_inplace (rec_len : Nat) (prior : TdbRec)
    (key : Nat) (data : Option Nat) (len : Nat) : M TdbRec :=
  if prior.key ≠ 0 then .error .keyNonzero
  else if len ≠ rec_len then .error .lenMismatch
  else .ok { key := key, off := match data with | some d => d | none => prior.off }

/-- Slot metadata write (`__htrie_bckt_write_metadata`, htrie.c): for an
inplace database create the record in the slot, otherwise store the key
and the data record offset. -/
def __htrie_bckt_write_metadata (inplace : Bool) (rec_len : Nat)
    (b : TdbHtrieBucket) (key : Nat) (data : Option Nat) (len : Nat)
    (slot : Nat) (recOff : Nat) : M TdbHtrieBucket :=
  if inplace then do
    let r ← tdb_htrie_create_rec_inplace rec_len (b.recs.getD slot ⟨0, 0⟩)
              key data len
    .ok { b with recs := b.recs.set slot r }
  else
    .ok { b with recs := b.recs.set slot ⟨key, recOff⟩ }

/-- Copy a record into an exclusively owned bucket
(`__htrie_bckt_copy_metadata`, htrie.c): take the lowest free slot, set
its bit, and write the metadata (or create the inplace record). -/
def __htrie_bckt_copy_metadata (inplace : Bool) (rec_len : Nat)
    (b : TdbHtrieBucket) (rec : TdbRec) : M TdbHtrieBucket :=
  let bit := flz b.col_map
  let slot := __htrie_bckt_bit2slot bit
  if tdb_htrie_bckt_burst_threshold bit then .error .thresholdHit
  else
    let b := { b with col_map := b.col_map ||| 2 ^ bit }
    if inplace then do
      let r ← tdb_htrie_create_rec_inplace rec_len (b.recs.getD slot ⟨0, 0⟩)
                rec.key (some rec.off) rec_len
      .ok { b with recs := b.recs.set slot r }
    else
      .ok { b with recs := b.recs.set slot ⟨rec.key, rec.off⟩ }

/-- Claim a free slot (`__htrie_bckt_acquire_empty_slot`, htrie.c): find
the free bit, report full below the burst threshold, else set the bit.
The test-and-set retry loop runs once in the sequential embedding. -/
def __htrie_bckt_acquire_empty_slot (b : TdbHtrieBucket) :
    Option (Nat × TdbHtrieBucket) :=
  let b_free := flz b.col_map
  if tdb_htrie_bckt_burst_threshold b_free then none
  else some (__htrie_bckt_bit2slot b_free,
             { b with col_map := b.col_map ||| 2 ^ b_free })

/-- Reference to an index node: `none` is the root, `some off` an inner
node at byte offset `off`. -/
abbrev NodeRef := Option Nat

/-- Read reference slot `i` of a node. -/
def nodeSlotGet (s : TdbState) (node : NodeRef) (i : Nat) : M Nat :=
  match node with
  | none => .ok (s.root.getD i 0)
  | some off =>
    match alookup s.nodes off with
    | none => .error .wildPointer
    | some shifts => .ok (shifts.getD i 0)

/-- Write reference slot `i` of a node. -/
def nodeSlotSet (s : TdbState) (node : NodeRef) (i v : Nat) : M TdbState :=
  match node with
  | none => .ok { s with root := s.root.set i v }
  | some off =>
    match alookup s.nodes off with
    | none => .error .wildPointer
    | some shifts => .ok { s with nodes := aset s.nodes off (shifts.set i v) }

/-- Result of `tdb_htrie_descend`: a resolved data reference (byte offset
of the bucket) or absence, together with the resolved bit count and the
last visited index node (the `*node` out-parameter). -/
inductive DescendRes where
  /-- a data reference was resolved to a bucket byte offset -/
  | found (bits : Nat) (off : Nat) (node : NodeRef)
  /-- the key is absent; descend stopped at `node` -/
  | absent (bits : Nat) (node : NodeRef)
deriving Repr, DecidableEq

/-- Loop of `tdb_htrie_descend` (htrie.c).  The in-file bounds assertion
on the decoded offset (a sanity check against the database size) is
omitted.  The data branch resolves the reference with `TDB_I2O`, the index
branch follows the child node, consumes four more bits, asserts the key is
not exhausted and reads the next reference. -/
def descend_loop (s : TdbState) (key : Nat) :
    Nat → Nat → Nat → NodeRef → M DescendRes
  | 0, _, _, _ => .error .fuel
  | fuel + 1, o, bits, node =>
    if o &&& TDB_HTRIE_DBIT ≠ 0 then
      let bits := bits + TDB_HTRIE_BITS
      let o := o ^^^ TDB_HTRIE_DBIT
      if o = 0 then .error .zeroRef
      else .ok (.found bits (TDB_I2O o) node)
    else if o = 0 then .ok (.absent bits node)
    else
      match alookup s.nodes (TDB_I2O o) with
      | none => .error .wildPointer
      | some shifts =>
        let node := some (TDB_I2O o)
        let bits := bits + TDB_HTRIE_BITS
        if TDB_HTRIE_RESOLVED bits then .error .resolvedHit
        else
          descend_loop s key fuel (shifts.getD (TDB_HTRIE_IDX key bits) 0)
            bits node

/-- Descend from the root (`tdb_htrie_descend`, htrie.c), starting with
`BUG_ON(*bits > 0)` and the root read indexed by the low `root_bits` key
bits. -/
def tdb_htrie_descend (s : TdbState) (key : Nat) (bits : Nat) : M DescendRes :=
  if 0 < bits then .error .bitsNonzero
  else
    descend_loop s key 17 (s.root.getD (key &&& (2 ^ s.root_bits - 1)) 0)
      bits none

/-- Result of `__htrie_insert_new_bckt`: success (0) with the record
pointer delivered through `*rec`, `-EAGAIN`, or `-ENOMEM`. -/
inductive CRes where
  /-- the bucket was published by the parent-slot CAS -/
  | ok (s : TdbState) (recPtr : Nat)
  /-- the parent-slot CAS lost; the bucket was rolled back -/
  | eagain (s : TdbState)
  /-- bucket allocation failed -/
  | enomem (s : TdbState)
deriving Repr, DecidableEq

/-- Create and publish a fresh bucket for a missing key
(`__htrie_insert_new_bckt`, htrie.c): allocate a bucket, write the record
metadata into slot 0, set the collision map to
`TDB_HTRIE_SLOT2BIT(TDB_HTRIE_COLL_MAX)`, and CAS the parent node slot
from 0 to the encoded bucket reference. -/
def __htrie_insert_new_bckt (s : TdbState) (key bits : Nat) (node : NodeRef)
    (data : Option Nat) (len : Nat) (recOff : Nat) : M CRes := do
  match ← tdb_htrie_alloc_bucket s with
  | none => .ok (.enomem s)
  | some (s, boff) =>
    match bucketAt s boff with
    | none => .error .wildPointer
    | some b => do
      let b ← __htrie_bckt_write_metadata s.inplace s.rec_len b key data len 0
                recOff
      let b := { b with col_map := TDB_HTRIE_SLOT2BIT TDB_HTRIE_COLL_MAX }
      let s := setBucket s boff b
      let b_link := TDB_O2DI boff ||| TDB_HTRIE_DBIT
      let i := TDB_HTRIE_IDX key bits
      let cur ← nodeSlotGet s node i
      if cur = 0 then do
        let s ← nodeSlotSet s node i b_link
        .ok (.ok s (if s.inplace then __htrie_bckt_rec_off boff 0 else recOff))
      else
        .ok (.eagain (tdb_htrie_rollback_bucket s boff))

/-- Slot-claim loop of `__htrie_bckt_insert_new_rec` (htrie.c): write the
metadata, acquire a slot, and repeat at the acquired slot on a mismatch;
after winning, write the metadata once more.  `none` models `-EINVAL`
(bucket full). -/
def __htrie_bckt_insert_new_rec (inplace : Bool) (rec_len : Nat) :
    Nat → TdbHtrieBucket → Nat → Option Nat → Nat → Nat → Nat →
    M (Option (TdbHtrieBucket × Nat))
  | 0, _, _, _, _, _, _ => .error .fuel
  | fuel + 1, b, key, data, len, slot, recOff => do
    let b ← __htrie_bckt_write_metadata inplace rec_len b key data len slot
              recOff
    match __htrie_bckt_acquire_empty_slot b with
    | none => .ok none
    | some (sl, b) =>
      if sl = slot then do
        let b ← __htrie_bckt_write_metadata inplace rec_len b key data len slot
                  recOff
        .ok (some (b, slot))
      else
        __htrie_bckt_insert_new_rec inplace rec_len fuel b key data len sl
          recOff

/-- Result of `__htrie_bckt_move_records`: success with the accumulated
new collision map, or `-ENOMEM`. -/
inductive MoveOut where
  /-- all records of the snapshot were distributed -/
  | ok (s : TdbState) (new_map : Nat)
  /-- a child bucket allocation failed with `no_mem_fail` unset -/
  | nomem (s : TdbState)
deriving Repr, DecidableEq

/-- Per-slot loop of `__htrie_bckt_move_records` (htrie.c), redistributing
the records of the bucket at `boff` whose bits are set in the snapshot
`map` over the index node at `ioff` by the next key slice.  The first
record stays in the old bucket; further first-references allocate a child
bucket (or, with `no_mem_fail`, alias the old bucket and bump the
diagnostic counter); collisions copy into the node's existing child,
which is located with `TDB_II2O` applied to the `TDB_O2DI`-encoded
reference, exactly as the C code does. -/
def __htrie_bckt_move_records_go (bits ioff boff : Nat) (no_mem_fail : Bool)
    (map : Nat) : List Nat → TdbState → Nat → M MoveOut
  | [], s, new_map => .ok (.ok s new_map)
  | sl :: rest, s, new_map =>
    let bit := __htrie_bckt_slot2bit sl
    if ¬ map.testBit bit then
      __htrie_bckt_move_records_go bits ioff boff no_mem_fail map rest s new_map
    else
      match bucketAt s boff with
      | none => .error .wildPointer
      | some b => do
        let r := b.recs.getD sl ⟨0, 0⟩
        let i := TDB_HTRIE_IDX r.key bits
        let cur ← nodeSlotGet s (some ioff) i
        if cur = 0 then
          if new_map = 0 then do
            let s ← nodeSlotSet s (some ioff) i (TDB_O2DI boff ||| TDB_HTRIE_DBIT)
            __htrie_bckt_move_records_go bits ioff boff no_mem_fail map rest s
              (new_map ||| 2 ^ bit)
          else
            match ← tdb_htrie_alloc_bucket s with
            | some (s, noff) =>
              match bucketAt s noff with
              | none => .error .wildPointer
              | some bn => do
                let bn ← __htrie_bckt_copy_metadata s.inplace s.rec_len bn r
                let s := setBucket s noff bn
                let s ← nodeSlotSet s (some ioff) i
                          (TDB_O2DI noff ||| TDB_HTRIE_DBIT)
                __htrie_bckt_move_records_go bits ioff boff no_mem_fail map rest
                  s new_map
            | none =>
              if ¬ no_mem_fail then .ok (.nomem s)
              else do
                let s := { s with
                  burst_collision_no_mem := s.burst_collision_no_mem + 1 }
                let s ← nodeSlotSet s (some ioff) i
                          (TDB_O2DI boff ||| TDB_HTRIE_DBIT)
                __htrie_bckt_move_records_go bits ioff boff no_mem_fail map rest
                  s new_map
        else do
          let o2 := cur &&& (TDB_HTRIE_DBIT - 1)
          let addr := TDB_II2O o2
          if addr ≠ boff then
            match bucketAt s addr with
            | none => .error .wildPointer
            | some bn => do
              let bn ← __htrie_bckt_copy_metadata s.inplace s.rec_len bn r
              __htrie_bckt_move_records_go bits ioff boff no_mem_fail map rest
                (setBucket s addr bn) new_map
          else
            __htrie_bckt_move_records_go bits ioff boff no_mem_fail map rest s
              (new_map ||| 2 ^ bit)

/-- Record redistribution (`__htrie_bckt_move_records`, htrie.c) over all
bucket slots, starting from the caller's accumulated `new_map`. -/
def __htrie_bckt_move_records (s : TdbState) (boff map bits ioff : Nat)
    (no_mem_fail : Bool) (new_map : Nat) : M MoveOut :=
  __htrie_bckt_move_records_go bits ioff boff no_mem_fail map
    (List.range TDB_HTRIE_BCKT_SLOTS_N) s new_map

/-- Reclaim loop of the `err_free_mem` block of `tdb_htrie_bckt_burst`
(htrie.c): every non-zero reference of the new index node is decoded with
`TDB_II2O` (after clearing the data bit) and pushed onto the free-bucket
queue. -/
def burst_free_go : List Nat → TdbState → M TdbState
  | [], s => .ok s
  | v :: rest, s =>
    if v ≠ 0 then do
      let s ← tdb_htrie_reclaim_bucket s (TDB_II2O (v &&& (TDB_HTRIE_DBIT - 1)))
      burst_free_go rest s
    else burst_free_go rest s

/-- The `err_free_mem` block of `tdb_htrie_bckt_burst` (htrie.c): free all
buckets referenced from the new index node, then roll the node back. -/
def tdb_htrie_bckt_burst_free (s : TdbState) (ioff : Nat) : M TdbState := do
  let shifts := (alookup s.nodes ioff).getD (List.replicate TDB_HTRIE_FANOUT 0)
  let s ← burst_free_go shifts s
  .ok (tdb_htrie_rollback_index s ioff)

/-- Result of `tdb_htrie_bckt_burst`. -/
inductive BurstRes where
  /-- return 0: the burst increased fan-out; `*node` is the new node -/
  | done (s : TdbState) (node : Nat)
  /-- return -1: no new branch; caller advances `bits` and repeats;
      `*node` was already updated to the new node -/
  | again (s : TdbState) (node : Nat)
  /-- the parent-slot CAS lost -/
  | eagain (s : TdbState)
  /-- allocation failed -/
  | enomem (s : TdbState)
deriving Repr, DecidableEq

/-- Collision-map replacement loop of `tdb_htrie_bckt_burst` (htrie.c):
CAS `b->col_map` from the snapshot `map` to `new_map`; on a mismatch
redistribute the concurrently added bits (`no_mem_fail` set) and retry.
Sequentially the first CAS succeeds. -/
def burst_swap_loop (boff bits ioff : Nat) :
    Nat → TdbState → Nat → Nat → M (TdbState × Nat × Nat)
  | 0, _, _, _ => .error .fuel
  | fuel + 1, s, map, new_map =>
    match bucketAt s boff with
    | none => .error .wildPointer
    | some b =>
      let curr_map := b.col_map
      if curr_map = map then
        .ok (setBucket s boff { b with col_map := new_map }, map, new_map)
      else do
        match ← __htrie_bckt_move_records s boff (curr_map ^^^ map) bits ioff
                  true new_map with
        | .ok s new_map => burst_swap_loop boff bits ioff fuel s curr_map new_map
        | .nomem _ => .error .fuel

/-- Bucket burst (`tdb_htrie_bckt_burst`, htrie.c): allocate a new index
node, redistribute the bucket's records over it, CAS the parent slot from
`old_off` (the byte offset returned by descend) to the raw offset of the
new node, then swap the collision map.  On `-ENOMEM` or a CAS mismatch
the `err_free_mem` block reclaims every bucket referenced from the new
node and rolls the node back. -/
def tdb_htrie_bckt_burst (s : TdbState) (boff old_off key bits : Nat)
    (node : NodeRef) : M BurstRes :=
  match bucketAt s boff with
  | none => .error .wildPointer
  | some b =>
    let map := b.col_map
    match tdb_htrie_alloc_index s with
    | none => .ok (.enomem s)
    | some (s, ioff) => do
      match ← __htrie_bckt_move_records s boff map bits ioff false 0 with
      | .nomem s => do
        let s ← tdb_htrie_bckt_burst_free s ioff
        .ok (.enomem s)
      | .ok s new_map => do
        let i := TDB_HTRIE_IDX key (bits - TDB_HTRIE_BITS)
        let cur ← nodeSlotGet s node i
        if cur ≠ old_off then do
          let s ← tdb_htrie_bckt_burst_free s ioff
          .ok (.eagain s)
        else do
          let s ← nodeSlotSet s node i ioff
          let (s, map, new_map) ← burst_swap_loop boff bits ioff 4 s map new_map
          if new_map = map then .ok (.again s ioff)
          else .ok (.done s ioff)

/-- Outcome of `tdb_htrie_insert` together with the post state and the
instrumentation flag `stored`, set exactly when a record was committed to
the trie (slot metadata written and published). -/
structure InsertOut where
  /-- post state -/
  s : TdbState
  /-- the returned record handle; `none` is the C NULL return -/
  ret : Option Nat
  /-- instrumentation: a record was committed and published -/
  stored : Bool
  /-- the value left in `*len` -/
  lenOut : Nat
deriving Repr, DecidableEq

/-- The `err_data_free` label of `tdb_htrie_insert` (htrie.c): roll back
the data allocation unless the database is inplace. -/
def insert_err_data_free (s : TdbState) (recOff len : Nat) : TdbState :=
  if ¬ s.inplace then tdb_htrie_rollback_data s recOff len else s

/-- Burst loop of `tdb_htrie_insert` (htrie.c, the `while (1)` around
`tdb_htrie_bckt_burst`).  Mirrors the C control flow faithfully: a burst
returning 0 breaks out of the loop and falls through into the
`err_data_free` label (rolling back and returning NULL), `-ENOMEM` jumps
there directly, `-EAGAIN` restarts the descent (signalled to the caller
as `.inr`), and -1 advances `bits` and retries, checking key
exhaustion. -/
def insert_burst_phase (key : Nat) (data : Option Nat) (recOff len : Nat) :
    Nat → TdbState → Nat → Nat → NodeRef →
    M (Sum InsertOut (TdbState × Nat))
  | 0, _, _, _, _ => .error .fuel
  | fuel + 1, s, boff, bits, node => do
    match ← tdb_htrie_bckt_burst s boff boff key bits node with
    | .done s _ =>
      .ok (.inl ⟨insert_err_data_free s recOff len, none, false, len⟩)
    | .enomem s =>
      .ok (.inl ⟨insert_err_data_free s recOff len, none, false, len⟩)
    | .eagain s => .ok (.inr (s, bits))
    | .again s ioff =>
      let bits := bits + TDB_HTRIE_BITS
      if TDB_HTRIE_RESOLVED bits then
        .ok (.inl ⟨insert_err_data_free s recOff len, none, false, len⟩)
      else
        insert_burst_phase key data recOff len fuel s boff bits (some ioff)

/-- Retry loop of `tdb_htrie_insert` (htrie.c): descend, and either create
a fresh bucket for a missing key — where a successful creation reaches
`goto err` and returns NULL — or claim a slot in the found bucket,
falling back to the burst path when the bucket is full. -/
def insert_loop (key : Nat) (data : Option Nat) (recOff len : Nat) :
    Nat → TdbState → Nat → M InsertOut
  | 0, _, _ => .error .fuel
  | fuel + 1, s, bits => do
    match ← tdb_htrie_descend s key bits with
    | .absent bits node => do
      match ← __htrie_insert_new_bckt s key bits node data len recOff with
      | .ok s _ => .ok ⟨s, none, true, len⟩
      | .enomem s =>
        .ok ⟨insert_err_data_free s recOff len, none, false, len⟩
      | .eagain s => insert_loop key data recOff len fuel s bits
    | .found bits boff node =>
      match bucketAt s boff with
      | none => .error .wildPointer
      | some b => do
        let full : M (Sum InsertOut (TdbState × Nat)) :=
          if TDB_HTRIE_RESOLVED bits then
            .ok (.inl ⟨insert_err_data_free s recOff len, none, false, len⟩)
          else if bits < TDB_HTRIE_BITS then .error .burstBelowRoot
          else insert_burst_phase key data recOff len 17 s boff bits node
        let b_free := flz b.col_map
        if ¬ tdb_htrie_bckt_burst_threshold b_free then do
          let slot := __htrie_bckt_bit2slot b_free
          match ← __htrie_bckt_insert_new_rec s.inplace s.rec_len 64 b key data
                    len slot recOff with
          | some (b, slotF) =>
            let s := setBucket s boff b
            let ret := if s.inplace then __htrie_bckt_rec_off boff slotF
                       else recOff
            .ok ⟨s, some ret, true, len⟩
          | none =>
            match ← full with
            | .inl out => .ok out
            | .inr (s, bits) => insert_loop key data recOff len fuel s bits
        else
          match ← full with
          | .inl out => .ok out
          | .inr (s, bits) => insert_loop key data recOff len fuel s bits

/-- Record insertion (`tdb_htrie_insert`, htrie.c): reject empty data,
allocate and fill the out-of-line data record unless the database is
inplace, then run the descend/claim/burst retry loop.  The generation
guard has no effect in the sequential embedding. -/
def tdb_htrie_insert (s : TdbState) (key : Nat) (data : Option Nat)
    (len : Nat) : M InsertOut :=
  if len = 0 then .ok ⟨s, none, false, len⟩
  else if ¬ s.inplace then
    match tdb_htrie_alloc_data s with
    | none => .ok ⟨s, none, false, len⟩
    | some (s, off, granted) => do
      let s ← tdb_htrie_create_rec_data s off data granted
      insert_loop key data off granted 8 s 0
  else
    insert_loop key data 0 len 8 s 0

/-- Key lookup (`tdb_htrie_lookup`, htrie.c): descend and return the
bucket handle, or NULL when the key is absent.  The generation guard has
no effect in the sequential embedding. -/
def tdb_htrie_lookup (s : TdbState) (key : Nat) : M (Option Nat) := do
  match ← tdb_htrie_descend s key 0 with
  | .found _ off _ => .ok (some off)
  | .absent _ _ => .ok none

/-- Bucket scan (`tdb_htrie_bscan_for_rec`, htrie.c): from slot `i0`
upwards, return the first occupied slot whose key matches, paired with
the record body pointer (the slot itself for an inplace database, the
dereferenced data offset otherwise). -/
def tdb_htrie_bscan_for_rec (s : TdbState) (b : TdbHtrieBucket)
    (boff key i0 : Nat) : Option (Nat × Nat) :=
  match ((List.range TDB_HTRIE_BCKT_SLOTS_N).drop i0).find? (fun i =>
      b.col_map.testBit (__htrie_bckt_slot2bit i) &&
      (b.recs.getD i ⟨0, 0⟩).key == key) with
  | none => none
  | some i =>
    some (i, if s.inplace then __htrie_bckt_rec_off boff i
             else (b.recs.getD i ⟨0, 0⟩).off)

/-- Filter loop of `tdb_htrie_remove` (htrie.c): copy every occupied slot
of the bucket at `boff` whose key differs from the target into the
replacement bucket at `noff`, and collect the matching records into the
`data_reclaim` array. -/
def remove_filter_go (inplace : Bool) (rec_len : Nat) (key boff noff : Nat) :
    List Nat → TdbState → List TdbRec → M (TdbState × List TdbRec)
  | [], s, dr => .ok (s, dr)
  | i :: rest, s, dr =>
    match bucketAt s boff with
    | none => .error .wildPointer
    | some b =>
      if ¬ b.col_map.testBit (__htrie_bckt_slot2bit i) then
        remove_filter_go inplace rec_len key boff noff rest s dr
      else
        let r := b.recs.getD i ⟨0, 0⟩
        if r.key ≠ key then
          match bucketAt s noff with
          | none => .error .wildPointer
          | some bn => do
            let bn ← __htrie_bckt_copy_metadata inplace rec_len bn r
            remove_filter_go inplace rec_len key boff noff rest
              (setBucket s noff bn) dr
        else
          remove_filter_go inplace rec_len key boff noff rest s (dr.concat r)

/-- Chunk-chain reclamation of one variable-length record in
`tdb_htrie_remove` (htrie.c): free each chunk (its address and `len` are
recorded), following the raw `chunk_next` offsets. -/
def remove_free_chain : Nat → TdbState → Nat → M TdbState
  | 0, _, _ => .error .fuel
  | fuel + 1, s, vr => do
    let (cn, ln) := vheapAt s vr
    let _ ← tdb_htrie_free_data true ln
    let s := { s with freed_data := (vr, ln) :: s.freed_data }
    if cn = 0 then .ok s else remove_free_chain fuel s cn

/-- Data reclamation loop of `tdb_htrie_remove` (htrie.c) over the
collected records: walk the chunk chain for a variable-length database,
else free one fixed-size chunk of `rec_len` bytes per record. -/
def remove_free_data_go (varlen : Bool) (rec_len : Nat) :
    List TdbRec → TdbState → M TdbState
  | [], s => .ok s
  | r :: rest, s =>
    if varlen then do
      let s ← remove_free_chain 34 s r.off
      remove_free_data_go varlen rec_len rest s
    else do
      let _ ← tdb_htrie_free_data false rec_len
      let s := { s with freed_data := (r.off, rec_len) :: s.freed_data }
      remove_free_data_go varlen rec_len rest s

/-- Retry loop of `tdb_htrie_remove` (htrie.c): descend (note that `bits`
is not reset on retry), build the filtered replacement bucket, and CAS
the parent slot from the byte offset returned by descend to the byte
offset of the replacement; on a mismatch re-initialize the replacement
and retry.  After a successful CAS the generation is synchronized (no
effect sequentially), the old bucket reclaimed and the data freed. -/
def remove_loop (key noff : Nat) : Nat → TdbState → Nat → M TdbState
  | 0, _, _ => .error .fuel
  | fuel + 1, s, bits => do
    match ← tdb_htrie_descend s key bits with
    | .absent _ _ => tdb_htrie_reclaim_bucket s noff
    | .found bits boff node => do
      let (s, dr) ← remove_filter_go s.inplace s.rec_len key boff noff
                      (List.range TDB_HTRIE_BCKT_SLOTS_N) s []
      let i := TDB_HTRIE_IDX key (bits - TDB_HTRIE_BITS)
      let cur ← nodeSlotGet s node i
      if cur ≠ boff then
        match bucketAt s noff with
        | none => .error .wildPointer
        | some bn =>
          remove_loop key noff fuel (setBucket s noff (tdb_htrie_init_bucket bn))
            bits
      else do
        let s ← nodeSlotSet s node i noff
        let s ← tdb_htrie_reclaim_bucket s boff
        if s.inplace then .ok s
        else remove_free_data_go (TDB_HTRIE_VARLENRECS s) s.rec_len dr s

/-- Key removal (`tdb_htrie_remove`, htrie.c): allocate the replacement
bucket — returning silently when the allocation fails — then run the
descend/filter/CAS retry loop. -/
def tdb_htrie_remove (s : TdbState) (key : Nat) : M TdbState := do
  match ← tdb_htrie_alloc_bucket s with
  | none => .ok s
  | some (s, noff) => remove_loop key noff 3 s 0

/-- Record body pointer passed to the walk callback
(`tdb_htrie_bucket_walk`, htrie.c): `r->data` of the inplace slot record,
or `vr->data` of the out-of-line record at `r->off`.  The `data` fields
sit 8 bytes after the record start (after the key, respectively after the
variable-record header). -/
def walk_body (inplace : Bool) (boff slot : Nat) (r : TdbRec) : Nat :=
  if inplace then __htrie_bckt_rec_off boff slot + 8 else r.off + sizeofTdbVRec

/-- Slot loop of `tdb_htrie_bucket_walk` (htrie.c): apply `fn` to the body
of each occupied slot, stopping at the first non-zero result. -/
def tdb_htrie_bucket_walk_go (inplace : Bool) (boff : Nat)
    (b : TdbHtrieBucket) (fn : Nat → Int) : List Nat → Int
  | [] => 0
  | i :: rest =>
    if ¬ b.col_map.testBit (__htrie_bckt_slot2bit i) then
      tdb_htrie_bucket_walk_go inplace boff b fn rest
    else
      let res := fn (walk_body inplace boff i (b.recs.getD i ⟨0, 0⟩))
      if res ≠ 0 then res else tdb_htrie_bucket_walk_go inplace boff b fn rest

/-- Bucket traversal (`tdb_htrie_bucket_walk`, htrie.c). -/
def tdb_htrie_bucket_walk (inplace : Bool) (boff : Nat) (b : TdbHtrieBucket)
    (fn : Nat → Int) : Int :=
  tdb_htrie_bucket_walk_go inplace boff b fn (List.range TDB_HTRIE_BCKT_SLOTS_N)

/-- Slot loop of `tdb_htrie_node_visit` (htrie.c) over `(index, reference)`
pairs of one node: assert the index is not beyond the resolved depth
(the C code reuses `bits` as the loop counter), skip empty references,
walk buckets behind data references, and hand child index nodes to
`visitChild` (the bounded recursion, supplied by
`tdb_htrie_node_visit_go`); any non-zero result aborts the walk.  The
in-file bounds assertion on the decoded offset is omitted. -/
def tdb_htrie_node_visit_slots (s : TdbState) (fn : Nat → Int)
    (visitChild : List Nat → M Int) : List (Nat × Nat) → M Int
  | [] => .ok 0
  | (i, o) :: rest =>
    if TDB_HTRIE_RESOLVED i then .error .resolvedHit
    else if o = 0 then tdb_htrie_node_visit_slots s fn visitChild rest
    else if o &&& TDB_HTRIE_DBIT ≠ 0 then
      let o2 := o ^^^ TDB_HTRIE_DBIT
      if o2 = 0 then .error .zeroRef
      else
        match bucketAt s (TDB_DI2O o2) with
        | none => .error .wildPointer
        | some b =>
          let res := tdb_htrie_bucket_walk s.inplace (TDB_DI2O o2) b fn
          if res ≠ 0 then .ok res
          else tdb_htrie_node_visit_slots s fn visitChild rest
    else
      match alookup s.nodes (TDB_II2O o) with
      | none => .error .wildPointer
      | some shifts => do
        let res ← visitChild shifts
        if res ≠ 0 then .ok res
        else tdb_htrie_node_visit_slots s fn visitChild rest

/-- Recursion of `tdb_htrie_node_visit` (htrie.c): each level runs the
slot loop, descending into child nodes with one level of fuel less (the
C recursion depth is hard-limited to 16 levels). -/
def tdb_htrie_node_visit_go (s : TdbState) (fn : Nat → Int) :
    Nat → List (Nat × Nat) → M Int
  | 0, l => tdb_htrie_node_visit_slots s fn (fun _ => .error .fuel) l
  | fuel + 1, l =>
    tdb_htrie_node_visit_slots s fn (fun shifts =>
      tdb_htrie_node_visit_go s fn fuel
        ((List.range TDB_HTRIE_FANOUT).map (fun j => (j, shifts.getD j 0)))) l

/-- Full traversal (`tdb_htrie_walk` via `tdb_htrie_node_visit`, htrie.c),
starting at the root node whose fanout is `2 ^ root_bits`. -/
def tdb_htrie_walk (s : TdbState) (fn : Nat → Int) : M Int :=
  tdb_htrie_node_visit_go s fn 17
    ((List.range (2 ^ s.root_bits)).map (fun j => (j, s.root.getD j 0)))

/-- Bodies of the occupied slots of one bucket, in slot order (the order
`tdb_htrie_bucket_walk` visits them). -/
def tdb_htrie_bucket_walk_trace (inplace : Bool) (boff : Nat)
    (b : TdbHtrieBucket) : List Nat :=
  (List.range TDB_HTRIE_BCKT_SLOTS_N).filterMap (fun i =>
    if b.col_map.testBit (__htrie_bckt_slot2bit i) then
      some (walk_body inplace boff i (b.recs.getD i ⟨0, 0⟩))
    else none)

/-- Trace variant of the slot loop: the bodies the walk hands to the
callback, in visit order, with the same assertions and dereferences but
no early exit. -/
def tdb_htrie_node_visit_trace_slots (s : TdbState)
    (traceChild : List Nat → M (List Nat)) :
    List (Nat × Nat) → M (List Nat)
  | [] => .ok []
  | (i, o) :: rest =>
    if TDB_HTRIE_RESOLVED i then .error .resolvedHit
    else if o = 0 then tdb_htrie_node_visit_trace_slots s traceChild rest
    else if o &&& TDB_HTRIE_DBIT ≠ 0 then
      let o2 := o ^^^ TDB_HTRIE_DBIT
      if o2 = 0 then .error .zeroRef
      else
        match bucketAt s (TDB_DI2O o2) with
        | none => .error .wildPointer
        | some b => do
          let tl ← tdb_htrie_node_visit_trace_slots s traceChild rest
          .ok (tdb_htrie_bucket_walk_trace s.inplace (TDB_DI2O o2) b ++ tl)
    else
      match alookup s.nodes (TDB_II2O o) with
      | none => .error .wildPointer
      | some shifts => do
        let hd ← traceChild shifts
        let tl ← tdb_htrie_node_visit_trace_slots s traceChild rest
        .ok (hd ++ tl)

/-- Trace variant of `tdb_htrie_node_visit_go`. -/
def tdb_htrie_node_visit_trace (s : TdbState) :
    Nat → List (Nat × Nat) → M (List Nat)
  | 0, l => tdb_htrie_node_visit_trace_slots s (fun _ => .error .fuel) l
  | fuel + 1, l =>
    tdb_htrie_node_visit_trace_slots s (fun shifts =>
      tdb_htrie_node_visit_trace s fuel
        ((List.range TDB_HTRIE_FANOUT).map (fun j => (j, shifts.getD j 0)))) l

/-- Visit-order trace of `tdb_htrie_walk`. -/
def tdb_htrie_walk_trace (s : TdbState) : M (List Nat) :=
  tdb_htrie_node_visit_trace s 17
    ((List.range (2 ^ s.root_bits)).map (fun j => (j, s.root.getD j 0)))

/-- Bodies of the records behind one stored reference: the occupied-slot
bodies of the decoded bucket for a data reference, nothing otherwise. -/
def bodiesOfRef (s : TdbState) (o : Nat) : List Nat :=
  if o &&& TDB_HTRIE_DBIT ≠ 0 then
    match bucketAt s (TDB_DI2O (o ^^^ TDB_HTRIE_DBIT)) with
    | some b =>
      tdb_htrie_bucket_walk_trace s.inplace (TDB_DI2O (o ^^^ TDB_HTRIE_DBIT)) b
    | none => []
  else []

/-- Bodies of all records reachable from the root, defined directly over
the flat state (independently of the walk recursion): for each root slot
holding a data reference, the occupied-slot bodies of the decoded
bucket. -/
def liveBodies (s : TdbState) : List Nat :=
  (List.range (2 ^ s.root_bits)).flatMap (fun i =>
    bodiesOfRef s (s.root.getD i 0))

/-- Well-formedness for the walk theorems: the root has fanout 16
(`root_bits = 4`, the only value `tdb_init_mapping` accepts), every root
reference is either empty or a decodable data reference to an existing
bucket, and record bodies occupy pairwise distinct addresses. -/
def WFwalk (s : TdbState) : Prop :=
  s.root_bits = 4 ∧
  (∀ v ∈ s.root, v = 0 ∨ (v &&& TDB_HTRIE_DBIT ≠ 0 ∧
    v ^^^ TDB_HTRIE_DBIT ≠ 0 ∧
    (bucketAt s (TDB_DI2O (v ^^^ TDB_HTRIE_DBIT))).isSome)) ∧
  (liveBodies s).Nodup

instance (s : TdbState) : Decidable (WFwalk s) := by
  unfold WFwalk; infer_instance

/-- First non-zero value of `fn` over a list of bodies (0 when all results
are zero): the value an aborting walk returns. -/
def firstNonzero (fn : Nat → Int) (l : List Nat) : Int :=
  ((l.map fn).find? (fun v => v != 0)).getD 0

deriving instance DecidableEq for Except

/-- A well-formed bucket lives at `off` in the bucket memory `bks`: its
slot array has the full `TDB_HTRIE_BCKT_SLOTS_N` length and its collision
map keeps the two bits below `TDB_HTRIE_BURST_MIN_BITS` clear (no
operation ever sets them, see the C5 invariants). -/
def bucketOkAt (bks : List (Nat × TdbHtrieBucket)) (off : Nat) : Prop :=
  (alookup bks off).isSome = true ∧
  ((alookup bks off).getD freshBucket).recs.length = TDB_HTRIE_BCKT_SLOTS_N ∧
  ((alookup bks off).getD freshBucket).col_map &&& 3 = 0

/-- A root-node reference is either empty or an encoded data reference
whose decoded byte offset stays below the data bit and addresses a
well-formed bucket. -/
def rootRefOk (bks : List (Nat × TdbHtrieBucket)) (v : Nat) : Prop :=
  v = 0 ∨
    (v &&& TDB_HTRIE_DBIT ≠ 0 ∧ v ^^^ TDB_HTRIE_DBIT ≠ 0 ∧
     TDB_I2O (v ^^^ TDB_HTRIE_DBIT) < 2 ^ 31 ∧
     bucketOkAt bks (TDB_I2O (v ^^^ TDB_HTRIE_DBIT)))

/-- An offset the fixed-size bucket allocator may grant: positive,
128-byte aligned, below the data bit, and any bucket already living there
(recycled memory) has the full slot-array length. -/
def supplyOffOk (bks : List (Nat × TdbHtrieBucket)) (off : Nat) : Prop :=
  off % 128 = 0 ∧ 0 < off ∧ off < 2 ^ 31 ∧
  ((alookup bks off).isSome = true →
    ((alookup bks off).getD freshBucket).recs.length = TDB_HTRIE_BCKT_SLOTS_N)

/-- The head of the free-bucket queue, when present, is a well-placed
existing bucket with the full slot-array length. -/
def freeHeadOk (bks : List (Nat × TdbHtrieBucket)) (h : Nat) : Prop :=
  h ≠ 0 →
    (h % 128 = 0 ∧ h < 2 ^ 31 ∧ (alookup bks h).isSome = true ∧
     ((alookup bks h).getD freshBucket).recs.length = TDB_HTRIE_BCKT_SLOTS_N)

/-- Well-formedness for the insert/lookup theorems: the root has fanout 16
(`root_bits = 4`, the only value `tdb_init_mapping` accepts), every root
slot holds a well-formed reference, and every offset the bucket allocator
can produce (supply or free queue) is well placed. -/
def WFins (s : TdbState) : Prop :=
  s.root_bits = 4 ∧ s.root.length = 16 ∧
  (∀ v ∈ s.root, rootRefOk s.buckets v) ∧
  (∀ off ∈ s.bckt_supply, supplyOffOk s.buckets off) ∧
  freeHeadOk s.buckets s.free_bckt_h

instance (bks : List (Nat × TdbHtrieBucket)) (off : Nat) :
    Decidable (bucketOkAt bks off) := by
  unfold bucketOkAt; infer_instance

instance (bks : List (Nat × TdbHtrieBucket)) (v : Nat) :
    Decidable (rootRefOk bks v) := by
  unfold rootRefOk; infer_instance

instance (bks : List (Nat × TdbHtrieBucket)) (off : Nat) :
    Decidable (supplyOffOk bks off) := by
  unfold supplyOffOk; infer_instance

instance (bks : List (Nat × TdbHtrieBucket)) (h : Nat) :
    Decidable (freeHeadOk bks h) := by
  unfold freeHeadOk; infer_instance

instance (s : TdbState) : Decidable (WFins s) := by
  unfold WFins; infer_instance

/-! Concrete example states used to evaluate the embedding. -/

/-- Freshly initialized inplace database (`root_bits = 4`, `rec_len = 8`)
with an empty trie; the allocator will grant bucket offsets 256 and 4096
and index-node offset 512. -/
def dbEmpty : TdbState :=
  { root_bits := 4, inplace := true, rec_len := 8,
    root := List.replicate 16 0, nodes := [], buckets := [], vheap := [],
    free_bckt_h := 0, free_bckt_t := 0,
    bckt_supply := [256, 4096], idx_supply := [512], data_supply := [],
    freed_data := [], burst_collision_no_mem := 0 }

/-- The bucket `tdb_htrie_insert` publishes for key 5 in `dbEmpty`: the
record in slot 0 and the collision map `TDB_HTRIE_SLOT2BIT(COLL_MAX)`. -/
def bOne : TdbHtrieBucket :=
  { col_map := 2 ^ 63, next := 0,
    recs := ⟨5, 77⟩ :: List.replicate 61 ⟨0, 0⟩ }

/-- State of `dbEmpty` after `tdb_htrie_insert(key = 5, len = 8)`: the
bucket at offset 256 is published in root slot 5 as
`TDB_O2DI(256) | TDB_HTRIE_DBIT = 2147483650`. -/
def dbOne : TdbState :=
  { dbEmpty with root := (List.replicate 16 0).set 5 2147483650,
                 buckets := [(256, bOne)], bckt_supply := [4096] }

/-- State `tdb_htrie_bckt_burst` leaves behind after its parent-slot CAS
mismatch on `dbOne`: the new index node at 512 references the old bucket,
the free-bucket queue holds the wrongly decoded address `128 = 256 / 2`,
and the node allocation is rolled back. -/
def dbOneBurstFail : TdbState :=
  { dbOne with
    nodes := [(512, 2147483650 :: List.replicate 15 0)],
    free_bckt_h := 128, free_bckt_t := 128 }

/-- Inplace database whose bucket allocator is exhausted and whose
free-bucket queue is empty. -/
def dbNoAlloc : TdbState := { dbEmpty with bckt_supply := [] }

/-- State of `dbEmpty` after a fresh bucket allocation: the zeroed bucket
sits at offset 256. -/
def dbFresh : TdbState :=
  { dbEmpty with buckets := [(256, freshBucket)], bckt_supply := [4096] }

/-- The bucket `__htrie_bckt_acquire_empty_slot` produces from `bOne`:
slot 1 claimed, bit 62 set. -/
def bTwo : TdbHtrieBucket := { bOne with col_map := 2 ^ 63 ||| 2 ^ 62 }

/-- Two-record bucket of a fixed-size out-of-line database: keys 5 and 21
with data records at offsets 1024 and 2048. -/
def bW : TdbHtrieBucket :=
  { col_map := 2 ^ 63 ||| 2 ^ 62, next := 0,
    recs := ⟨5, 1024⟩ :: ⟨21, 2048⟩ :: List.replicate 60 ⟨0, 0⟩ }

/-- Fixed-size out-of-line database holding `bW` in root slot 5. -/
def dbW : TdbState :=
  { root_bits := 4, inplace := false, rec_len := 8,
    root := (List.replicate 16 0).set 5 2147483650, nodes := [],
    buckets := [(256, bW)], vheap := [(1024, (0, 8)), (2048, (0, 8))],
    free_bckt_h := 0, free_bckt_t := 0,
    bckt_supply := [4096], idx_supply := [512], data_supply := [],
    freed_data := [], burst_collision_no_mem := 0 }

/-! Supporting lemmas. -/

/-- Reading any position of a constant list yields that constant. -/
theorem getD_replicate_eq {α : Type} (n j : Nat) (a : α) :
    (List.replicate n a).getD j a = a := by
  induction n generalizing j with
  | zero => cases j <;> simp [List.getD]
  | succ k ih => cases j <;> simp_all [List.replicate, List.getD]

/-- Bitwise AND distributes over OR on the left argument. -/
theorem nat_or_and_distrib (a b c : Nat) :
    (a ||| b) &&& c = (a &&& c) ||| (b &&& c) :=
  Nat.eq_of_testBit_eq (fun i => by
    simp [Nat.testBit_land, Nat.testBit_lor, Bool.and_or_distrib_right])

/-- Setting a bit at index at least 2 keeps the two lowest bits clear. -/
theorem and_three_or_two_pow (m bit : Nat) (h : m &&& 3 = 0) (hb : 2 ≤ bit) :
    (m ||| 2 ^ bit) &&& 3 = 0 := by
  have h4 : (2 : Nat) ^ bit &&& 3 = 0 := by
    have hdvd : (2 : Nat) ^ 2 ∣ 2 ^ bit := Nat.pow_dvd_pow 2 hb
    have hmod := Nat.and_pow_two_sub_one_eq_mod (2 ^ bit) 2
    simp only [show (2 : Nat) ^ 2 - 1 = 3 by decide] at hmod
    rw [hmod]
    exact Nat.dvd_iff_mod_eq_zero.mp hdvd
  rw [nat_or_and_distrib, h, h4]
  rfl

/-- A 64-bit word whose two lowest bits are clear has at most
`TDB_HTRIE_COLL_MAX` set bits. -/
theorem popcount64_le_coll_max (m : Nat) (h : m &&& 3 = 0) :
    popcount64 m ≤ TDB_HTRIE_COLL_MAX := by
  have hmod : m % 4 = 0 := by
    have h2 := Nat.and_pow_two_sub_one_eq_mod m 2
    simp only [show (2 : Nat) ^ 2 - 1 = 3 by decide,
      show (2 : Nat) ^ 2 = 4 by decide] at h2
    rw [h] at h2
    omega
  have h0 : m.testBit 0 = false := by
    rw [Nat.testBit_to_div_mod]
    simp only [pow_zero, Nat.div_one, decide_eq_false_iff_not]
    omega
  have h1 : m.testBit 1 = false := by
    rw [Nat.testBit_to_div_mod]
    simp only [pow_one, decide_eq_false_iff_not]
    omega
  unfold popcount64
  have hsplit : List.range 64 = List.range 2 ++ (List.range 62).map (2 + ·) :=
    List.range_add 2 62
  rw [hsplit, List.filter_append]
  have hnil : (List.range 2).filter (fun i => m.testBit i) = [] := by
    simp [List.range_succ, h0, h1]
  rw [hnil, List.nil_append]
  calc (((List.range 62).map (2 + ·)).filter (fun i => m.testBit i)).length
      ≤ ((List.range 62).map (2 + ·)).length :=
        List.length_filter_le _ _
    _ ≤ TDB_HTRIE_COLL_MAX := by simp [TDB_HTRIE_COLL_MAX]

/-- Unfolding of a successful `__htrie_bckt_acquire_empty_slot`. -/
theorem acquire_col_map (b : TdbHtrieBucket) (sl : Nat) (b' : TdbHtrieBucket)
    (h : __htrie_bckt_acquire_empty_slot b = some (sl, b')) :
    TDB_HTRIE_BURST_MIN_BITS ≤ flz b.col_map ∧
    b'.col_map = b.col_map ||| 2 ^ flz b.col_map ∧ b'.recs = b.recs := by
  by_cases hth : tdb_htrie_bckt_burst_threshold (flz b.col_map) = true
  · simp [__htrie_bckt_acquire_empty_slot, hth] at h
  · have hle : TDB_HTRIE_BURST_MIN_BITS ≤ flz b.col_map := by
      simp [tdb_htrie_bckt_burst_threshold] at hth
      omega
    simp [__htrie_bckt_acquire_empty_slot, hth] at h
    obtain ⟨h1, h2⟩ := h
    exact ⟨hle, by rw [← h2], by rw [← h2]⟩

/-- Unfolding of a successful `__htrie_bckt_copy_metadata`. -/
theorem copy_col_map (inpl : Bool) (rl : Nat) (b : TdbHtrieBucket)
    (r : TdbRec) (b' : TdbHtrieBucket)
    (h : __htrie_bckt_copy_metadata inpl rl b r = .ok b') :
    TDB_HTRIE_BURST_MIN_BITS ≤ flz b.col_map ∧
    b'.col_map = b.col_map ||| 2 ^ flz b.col_map := by
  by_cases hth : tdb_htrie_bckt_burst_threshold (flz b.col_map) = true
  · simp [__htrie_bckt_copy_metadata, hth] at h
  · have hle : TDB_HTRIE_BURST_MIN_BITS ≤ flz b.col_map := by
      simp [tdb_htrie_bckt_burst_threshold] at hth
      omega
    refine ⟨hle, ?_⟩
    simp only [__htrie_bckt_copy_metadata, Bind.bind, Except.bind] at h
    rw [if_neg hth] at h
    by_cases hinpl : inpl = true
    · rw [if_pos hinpl] at h
      split at h
      · exact absurd h (by simp)
      · injection h with h
        rw [← h]
    · rw [if_neg hinpl] at h
      injection h with h
      rw [← h]

/-- Turning on one further bit of the accumulated map: monotone, and the
new bit is one of the snapshot's bits. -/
theorem or_bit_step (map nm0 bit : Nat) (hbit : map.testBit bit = true) :
    (∀ j, nm0.testBit j = true → (nm0 ||| 2 ^ bit).testBit j = true) ∧
    (∀ j, (nm0 ||| 2 ^ bit).testBit j = true →
      nm0.testBit j = true ∨ map.testBit j = true) := by
  constructor
  · intro j hj; simp [Nat.testBit_lor, hj]
  · intro j hj
    rw [Nat.testBit_lor] at hj
    rcases Bool.or_eq_true_iff.mp hj with h | h
    · exact Or.inl h
    · right
      by_cases hbj : bit = j
      · rwa [← hbj]
      · rw [Nat.testBit_two_pow_of_ne hbj] at h; exact absurd h (by simp)

/-- Composition of one accumulated-map step with the rest of the loop. -/
theorem move_step_compose (map nm0 nm1 nm : Nat)
    (hstep1 : ∀ j, nm0.testBit j = true → nm1.testBit j = true)
    (hstep2 : ∀ j, nm1.testBit j = true →
      nm0.testBit j = true ∨ map.testBit j = true)
    (ih1 : ∀ j, nm1.testBit j = true → nm.testBit j = true)
    (ih2 : ∀ j, nm.testBit j = true →
      nm1.testBit j = true ∨ map.testBit j = true) :
    (∀ j, nm0.testBit j = true → nm.testBit j = true) ∧
    (∀ j, nm.testBit j = true →
      nm0.testBit j = true ∨ map.testBit j = true) :=
  ⟨fun j hj => ih1 j (hstep1 j hj),
   fun j hj => (ih2 j hj).elim (fun h => hstep2 j h) Or.inr⟩

/-- The redistribution loop only grows the accumulated map, and every bit
it adds is a bit of the snapshot `map`. -/
theorem move_go_maps (bits ioff boff : Nat) (nmf : Bool) (map : Nat)
    (slots : List Nat) :
    ∀ (s : TdbState) (nm0 : Nat) (s' : TdbState) (nm : Nat),
    __htrie_bckt_move_records_go bits ioff boff nmf map slots s nm0 =
      .ok (.ok s' nm) →
    (∀ j, nm0.testBit j = true → nm.testBit j = true) ∧
    (∀ j, nm.testBit j = true →
      nm0.testBit j = true ∨ map.testBit j = true) := by
  induction slots with
  | nil =>
    intro s nm0 s' nm h
    simp only [__htrie_bckt_move_records_go] at h
    injection h with h
    injection h with _ h
    subst h
    exact ⟨fun j hj => hj, fun j hj => Or.inl hj⟩
  | cons sl rest ih =>
    intro s nm0 s' nm h
    simp only [__htrie_bckt_move_records_go, Bind.bind, Except.bind] at h
    by_cases hbit : map.testBit (__htrie_bckt_slot2bit sl) = true
    · rw [if_neg (by simp [hbit])] at h
      have step := or_bit_step map nm0 (__htrie_bckt_slot2bit sl) hbit
      split at h
      · exact absurd h (by simp)
      · split at h
        · exact absurd h (by simp)
        · split at h
          · -- cur = 0
            split at h
            · -- first record stays: new_map gets the bit
              split at h
              · exact absurd h (by simp)
              · have ihr := ih _ _ _ _ h
                exact move_step_compose map nm0 _ nm step.1 step.2 ihr.1 ihr.2
            · -- really splitting: allocate or alias
              split at h
              · exact absurd h (by simp)
              · split at h
                · -- allocation succeeded
                  split at h
                  · exact absurd h (by simp)
                  · split at h
                    · exact absurd h (by simp)
                    · split at h
                      · exact absurd h (by simp)
                      · exact ih _ _ _ _ h
                · -- allocation failed
                  split at h
                  · exact absurd h (by simp)
                  · split at h
                    · exact absurd h (by simp)
                    · exact ih _ _ _ _ h
          · -- collision
            split at h
            · split at h
              · exact absurd h (by simp)
              · split at h
                · exact absurd h (by simp)
                · exact ih _ _ _ _ h
            · have ihr := ih _ _ _ _ h
              exact move_step_compose map nm0 _ nm step.1 step.2 ihr.1 ihr.2
    · rw [if_pos (by simp [hbit])] at h
      exact ih _ _ _ _ h

/-- A full redistribution pass over a fresh (zeroed) index node keeps the
slot-0 bit — the forced most-significant bit — in the new collision map,
and the new map is a subset of the snapshot. -/
theorem move_records_fresh_msb (s : TdbState) (boff map bits ioff : Nat)
    (s' : TdbState) (nm : Nat)
    (hnode : alookup s.nodes ioff = some (List.replicate TDB_HTRIE_FANOUT 0))
    (hmap : map.testBit 63 = true)
    (h : __htrie_bckt_move_records s boff map bits ioff false 0 =
      .ok (.ok s' nm)) :
    nm.testBit 63 = true ∧
    ∀ j, nm.testBit j = true → map.testBit j = true := by
  unfold __htrie_bckt_move_records at h
  rw [show List.range TDB_HTRIE_BCKT_SLOTS_N =
        0 :: List.map Nat.succ (List.range 61) from List.range_succ_eq_map 61]
    at h
  generalize hrest : List.map Nat.succ (List.range 61) = rest at h
  simp only [__htrie_bckt_move_records_go, Bind.bind, Except.bind] at h
  have hs0 : __htrie_bckt_slot2bit 0 = 63 := by decide
  rw [hs0, if_neg (by simp [hmap])] at h
  split at h
  · exact absurd h (by simp)
  · rename_i b hb
    have hget : nodeSlotGet s (some ioff)
        (TDB_HTRIE_IDX (b.recs.getD 0 ⟨0, 0⟩).key bits) = .ok 0 := by
      simp [nodeSlotGet, hnode, getD_replicate_eq]
    rw [hget] at h
    simp only [ite_true] at h
    have hset : ∃ s2, nodeSlotSet s (some ioff)
        (TDB_HTRIE_IDX (b.recs.getD 0 ⟨0, 0⟩).key bits)
        (TDB_O2DI boff ||| TDB_HTRIE_DBIT) = .ok s2 := by
      simp [nodeSlotSet, hnode]
    obtain ⟨s2, hset⟩ := hset
    rw [hset] at h
    simp only [] at h
    have hmaps := move_go_maps bits ioff boff false map rest _ _ _ _ h
    have h63 : (0 ||| 2 ^ 63 : Nat).testBit 63 = true := by decide
    refine ⟨hmaps.1 63 h63, fun j hj => ?_⟩
    rcases hmaps.2 j hj with hcase | hcase
    · rw [Nat.zero_or] at hcase
      by_cases hej : (63 : Nat) = j
      · rwa [← hej]
      · rw [Nat.testBit_two_pow_of_ne hej] at hcase
        exact absurd hcase (by simp)
    · exact hcase

/-- C5 amended: buckets holding at least one record keep the forced
most-significant bit: the map published by a first insert is exactly
`2 ^ 63`; a slot claim or a copy preserves the MSB and never touches the
two bits below `BURST_MIN_BITS`; a copy into a freshly initialized bucket
produces exactly `2 ^ 63`; a full burst redistribution over a fresh index
node keeps the MSB and shrinks the map; and any map with the two lowest
bits clear has `popcount ≤ COLL_MAX`, so the find-zero always yields a
valid bit index.  A freshly initialized bucket, by contrast, has
`col_map = 0` (the counterexample to the original claim). -/
theorem c5_amended_colmap_invariants :
    (∀ b, (tdb_htrie_init_bucket b).col_map = 0) ∧
    (∀ m, m &&& 3 = 0 → popcount64 m ≤ TDB_HTRIE_COLL_MAX) ∧
    (TDB_HTRIE_SLOT2BIT TDB_HTRIE_COLL_MAX).testBit 63 = true ∧
    (∀ b sl b', __htrie_bckt_acquire_empty_slot b = some (sl, b') →
      (b.col_map.testBit 63 = true → b'.col_map.testBit 63 = true) ∧
      (b.col_map &&& 3 = 0 → b'.col_map &&& 3 = 0 ∧
        popcount64 b'.col_map ≤ TDB_HTRIE_COLL_MAX)) ∧
    (∀ inpl rl b r b', __htrie_bckt_copy_metadata inpl rl b r = .ok b' →
      (b.col_map.testBit 63 = true → b'.col_map.testBit 63 = true) ∧
      (b.col_map &&& 3 = 0 → b'.col_map &&& 3 = 0 ∧
        popcount64 b'.col_map ≤ TDB_HTRIE_COLL_MAX)) ∧
    (∀ inpl rl b r b', __htrie_bckt_copy_metadata inpl rl
        (tdb_htrie_init_bucket b) r = .ok b' → b'.col_map = 2 ^ 63) ∧
    (∀ s boff map bits ioff s' nm,
      alookup s.nodes ioff = some (List.replicate TDB_HTRIE_FANOUT 0) →
      map.testBit 63 = true →
      __htrie_bckt_move_records s boff map bits ioff false 0 =
        .ok (.ok s' nm) →
      nm.testBit 63 = true ∧
      ∀ j, nm.testBit j = true → map.testBit j = true) := by
  refine ⟨fun b => rfl, popcount64_le_coll_max, by decide, ?_, ?_, ?_, ?_⟩
  · intro b sl b' hacq
    obtain ⟨hle, hcm, _⟩ := acquire_col_map b sl b' hacq
    constructor
    · intro h63; rw [hcm, Nat.testBit_lor, h63]; rfl
    · intro hlow
      have hand : b'.col_map &&& 3 = 0 := by
        rw [hcm]; exact and_three_or_two_pow _ _ hlow hle
      exact ⟨hand, popcount64_le_coll_max _ hand⟩
  · intro inpl rl b r b' hcp
    obtain ⟨hle, hcm⟩ := copy_col_map inpl rl b r b' hcp
    constructor
    · intro h63; rw [hcm, Nat.testBit_lor, h63]; rfl
    · intro hlow
      have hand : b'.col_map &&& 3 = 0 := by
        rw [hcm]; exact and_three_or_two_pow _ _ hlow hle
      exact ⟨hand, popcount64_le_coll_max _ hand⟩
  · intro inpl rl b r b' hcp
    obtain ⟨_, hcm⟩ := copy_col_map inpl rl (tdb_htrie_init_bucket b) r b' hcp
    have hz : (tdb_htrie_init_bucket b).col_map = 0 := rfl
    rw [hz] at hcm
    rw [hcm]
    decide
  · intro s boff map bits ioff s' nm hnode hmap h
    exact move_records_fresh_msb s boff map bits ioff s' nm hnode hmap h

/-- Witness for the amended C5 at concrete inputs: the one-record bucket
`bOne` published by the first insert satisfies the popcount bound, and a
slot claim on it yields `bTwo` with the most-significant bit still set
and the two low bits clear. -/
theorem c5_amended_witness :
    popcount64 bOne.col_map ≤ TDB_HTRIE_COLL_MAX ∧
    __htrie_bckt_acquire_empty_slot bOne = some (1, bTwo) ∧
    bTwo.col_map.testBit 63 = true ∧ bTwo.col_map &&& 3 = 0 := by
  obtain ⟨h1, h2, h3, h4, h5, h6, h7⟩ := c5_amended_colmap_invariants
  have hacq : __htrie_bckt_acquire_empty_slot bOne = some (1, bTwo) := by
    decide
  have h4r := h4 bOne 1 bTwo hacq
  exact ⟨h2 bOne.col_map (by decide), hacq, h4r.1 (by decide),
    (h4r.2 (by decide)).1⟩

/-- Unfolding `firstNonzero` over a cons cell. -/
theorem firstNonzero_cons (fn : Nat → Int) (x : Nat) (l : List Nat) :
    firstNonzero fn (x :: l) =
      if fn x ≠ 0 then fn x else firstNonzero fn l := by
  by_cases h : fn x = 0
  · simp [firstNonzero, List.find?, h]
  · have hb : (fn x != 0) = true := by simp [h]
    simp [firstNonzero, List.find?, hb, h]

/-- The first non-zero value over a concatenation. -/
theorem firstNonzero_append (fn : Nat → Int) (l1 l2 : List Nat) :
    firstNonzero fn (l1 ++ l2) =
      if firstNonzero fn l1 ≠ 0 then firstNonzero fn l1
      else firstNonzero fn l2 := by
  induction l1 with
  | nil => simp [firstNonzero]
  | cons x l1 ih =>
    rw [List.cons_append, firstNonzero_cons, firstNonzero_cons]
    by_cases h : fn x = 0
    · rw [if_neg (not_not_intro h), if_neg (not_not_intro h)]
      exact ih
    · rw [if_pos h, if_pos h, if_pos h]

/-- The early-exit bucket walk returns the first non-zero callback value
over the occupied-slot bodies, for any slot list. -/
theorem bucket_walk_go_first (inpl : Bool) (boff : Nat) (b : TdbHtrieBucket)
    (fn : Nat → Int) (slots : List Nat) :
    tdb_htrie_bucket_walk_go inpl boff b fn slots =
      firstNonzero fn (slots.filterMap (fun i =>
        if b.col_map.testBit (__htrie_bckt_slot2bit i) then
          some (walk_body inpl boff i (b.recs.getD i ⟨0, 0⟩))
        else none)) := by
  induction slots with
  | nil => rfl
  | cons i rest ih =>
    by_cases hb : b.col_map.testBit (__htrie_bckt_slot2bit i) = true
    · have hgo : tdb_htrie_bucket_walk_go inpl boff b fn (i :: rest) =
          (if fn (walk_body inpl boff i (b.recs.getD i ⟨0, 0⟩)) ≠ 0 then
            fn (walk_body inpl boff i (b.recs.getD i ⟨0, 0⟩))
          else tdb_htrie_bucket_walk_go inpl boff b fn rest) := by
        simp [tdb_htrie_bucket_walk_go, hb]
      have hfm : (i :: rest).filterMap (fun i =>
          if b.col_map.testBit (__htrie_bckt_slot2bit i) = true then
            some (walk_body inpl boff i (b.recs.getD i ⟨0, 0⟩))
          else none) =
          walk_body inpl boff i (b.recs.getD i ⟨0, 0⟩) ::
            rest.filterMap (fun i =>
              if b.col_map.testBit (__htrie_bckt_slot2bit i) = true then
                some (walk_body inpl boff i (b.recs.getD i ⟨0, 0⟩))
              else none) := by
        simp [List.filterMap_cons, hb]
      rw [hgo, hfm, firstNonzero_cons, ih]
    · have hgo : tdb_htrie_bucket_walk_go inpl boff b fn (i :: rest) =
          tdb_htrie_bucket_walk_go inpl boff b fn rest := by
        simp [tdb_htrie_bucket_walk_go, hb]
      have hfm : (i :: rest).filterMap (fun i =>
          if b.col_map.testBit (__htrie_bckt_slot2bit i) = true then
            some (walk_body inpl boff i (b.recs.getD i ⟨0, 0⟩))
          else none) =
          rest.filterMap (fun i =>
            if b.col_map.testBit (__htrie_bckt_slot2bit i) = true then
              some (walk_body inpl boff i (b.recs.getD i ⟨0, 0⟩))
            else none) := by
        simp [List.filterMap_cons, hb]
      rw [hgo, hfm, ih]

/-- The bucket walk over all slots equals the first non-zero value over
the bucket's trace. -/
theorem bucket_walk_first (inpl : Bool) (boff : Nat) (b : TdbHtrieBucket)
    (fn : Nat → Int) :
    tdb_htrie_bucket_walk inpl boff b fn =
      firstNonzero fn (tdb_htrie_bucket_walk_trace inpl boff b) :=
  bucket_walk_go_first inpl boff b fn _

/-- References a node-visit slot list may hold without tripping an
assertion or a wild dereference: indices below the resolution bound and
references that are empty or decodable data references. -/
def pairsOk (s : TdbState) (l : List (Nat × Nat)) : Prop :=
  ∀ p ∈ l, p.1 + TDB_HTRIE_BITS ≤ BITS_PER_LONG ∧
    (p.2 = 0 ∨ (p.2 &&& TDB_HTRIE_DBIT ≠ 0 ∧ p.2 ^^^ TDB_HTRIE_DBIT ≠ 0 ∧
      (bucketAt s (TDB_DI2O (p.2 ^^^ TDB_HTRIE_DBIT))).isSome))

/-- The early-exit slot loop over a well-formed slot list returns the
first non-zero callback value over the flattened bodies, for any child
visitor (no child branch is reachable). -/
theorem node_visit_slots_first (s : TdbState) (fn : Nat → Int)
    (vc : List Nat → M Int) (l : List (Nat × Nat)) (hl : pairsOk s l) :
    tdb_htrie_node_visit_slots s fn vc l =
      .ok (firstNonzero fn (l.flatMap (fun p => bodiesOfRef s p.2))) := by
  induction l with
  | nil => simp [tdb_htrie_node_visit_slots, firstNonzero]
  | cons p rest ih =>
    obtain ⟨i, o⟩ := p
    obtain ⟨hres, href⟩ := hl ⟨i, o⟩ (by simp)
    dsimp only at hres href
    have hres2 : i + 4 ≤ 64 := by
      simpa [BITS_PER_LONG, TDB_HTRIE_BITS] using hres
    have hres' : ¬ TDB_HTRIE_RESOLVED i = true := by
      simp only [TDB_HTRIE_RESOLVED, BITS_PER_LONG, TDB_HTRIE_BITS,
        decide_eq_true_eq]
      omega
    have ihr := ih (fun q hq => hl q (by simp [hq]))
    rcases href with h0 | ⟨hd, hz, hbk⟩
    · subst h0
      simp only [tdb_htrie_node_visit_slots, hres', ite_false, ite_true,
        List.flatMap_cons]
      have hb0 : bodiesOfRef s 0 = [] := by
        simp [bodiesOfRef, TDB_HTRIE_DBIT]
      rw [hb0, List.nil_append]
      exact ihr
    · obtain ⟨b, hb⟩ := Option.isSome_iff_exists.mp hbk
      have ho : ¬ (o = 0) := by
        intro h0
        rw [h0] at hd
        simp at hd
      have hbod : bodiesOfRef s o =
          tdb_htrie_bucket_walk_trace s.inplace
            (TDB_DI2O (o ^^^ TDB_HTRIE_DBIT)) b := by
        simp [bodiesOfRef, hd, hb]
      have hfix : tdb_htrie_bucket_walk s.inplace
          (TDB_DI2O (o ^^^ TDB_HTRIE_DBIT)) b fn =
          firstNonzero fn (bodiesOfRef s o) := by
        rw [hbod]
        exact bucket_walk_first ..
      simp only [tdb_htrie_node_visit_slots, List.flatMap_cons]
      rw [if_neg hres', if_neg ho, if_pos hd]
      simp only [if_neg hz, hb]
      rw [firstNonzero_append, hfix, ihr]
      by_cases hnz : firstNonzero fn (bodiesOfRef s o) = 0
      · simp [hnz]
      · simp [hnz]

/-- The early-exit node visit over a well-formed slot list returns the
first non-zero callback value over the flattened bodies, for any fuel. -/
theorem node_visit_go_first (s : TdbState) (fn : Nat → Int) (fuel : Nat)
    (l : List (Nat × Nat)) (hl : pairsOk s l) :
    tdb_htrie_node_visit_go s fn fuel l =
      .ok (firstNonzero fn (l.flatMap (fun p => bodiesOfRef s p.2))) := by
  cases fuel with
  | zero => exact node_visit_slots_first s fn _ l hl
  | succ fuel => exact node_visit_slots_first s fn _ l hl

/-- The trace slot loop over a well-formed slot list collects exactly the
flattened bodies, for any child tracer. -/
theorem node_visit_trace_slots_eq (s : TdbState)
    (tc : List Nat → M (List Nat)) (l : List (Nat × Nat))
    (hl : pairsOk s l) :
    tdb_htrie_node_visit_trace_slots s tc l =
      .ok (l.flatMap (fun p => bodiesOfRef s p.2)) := by
  induction l with
  | nil => simp [tdb_htrie_node_visit_trace_slots]
  | cons p rest ih =>
    obtain ⟨i, o⟩ := p
    obtain ⟨hres, href⟩ := hl ⟨i, o⟩ (by simp)
    dsimp only at hres href
    have hres' : ¬ TDB_HTRIE_RESOLVED i = true := by
      simp only [TDB_HTRIE_RESOLVED, BITS_PER_LONG, TDB_HTRIE_BITS,
        decide_eq_true_eq]
      simpa [BITS_PER_LONG, TDB_HTRIE_BITS] using hres
    have ihr := ih (fun q hq => hl q (by simp [hq]))
    rcases href with h0 | ⟨hd, hz, hbk⟩
    · subst h0
      simp only [tdb_htrie_node_visit_trace_slots, hres', ite_false,
        ite_true, List.flatMap_cons]
      have hb0 : bodiesOfRef s 0 = [] := by
        simp [bodiesOfRef, TDB_HTRIE_DBIT]
      rw [hb0, List.nil_append]
      exact ihr
    · obtain ⟨b, hb⟩ := Option.isSome_iff_exists.mp hbk
      have ho : ¬ (o = 0) := by
        intro h0
        rw [h0] at hd
        simp at hd
      have hbod : bodiesOfRef s o =
          tdb_htrie_bucket_walk_trace s.inplace
            (TDB_DI2O (o ^^^ TDB_HTRIE_DBIT)) b := by
        simp [bodiesOfRef, hd, hb]
      simp only [tdb_htrie_node_visit_trace_slots, List.flatMap_cons,
        Bind.bind, Except.bind]
      rw [if_neg hres', if_neg ho, if_pos hd]
      simp only [if_neg hz, hb, ihr]
      rw [hbod]

/-- The trace node visit over a well-formed slot list, for any fuel. -/
theorem node_visit_trace_eq (s : TdbState) (fuel : Nat)
    (l : List (Nat × Nat)) (hl : pairsOk s l) :
    tdb_htrie_node_visit_trace s fuel l =
      .ok (l.flatMap (fun p => bodiesOfRef s p.2)) := by
  cases fuel with
  | zero => exact node_visit_trace_slots_eq s _ l hl
  | succ fuel => exact node_visit_trace_slots_eq s _ l hl

/-- C8: over a well-formed state the walk hands the callback exactly the
live record bodies, in visit order, each exactly once (the trace equals
the flat enumeration of live bodies, which is duplicate-free), and for
every callback the walk stops at — and returns — the first non-zero
callback result. -/
theorem c8_walk_visits_each_live_record_once (s : TdbState)
    (hwf : WFwalk s) :
    tdb_htrie_walk_trace s = .ok (liveBodies s) ∧
    (liveBodies s).Nodup ∧
    (∀ fn, tdb_htrie_walk s fn = .ok (firstNonzero fn (liveBodies s))) := by
  obtain ⟨hrb, href, hnd⟩ := hwf
  have hflat : ((List.range (2 ^ s.root_bits)).map
      (fun j => (j, s.root.getD j 0))).flatMap (fun p => bodiesOfRef s p.2) =
      liveBodies s := by
    rw [liveBodies, List.flatMap_map]
  have hl : pairsOk s ((List.range (2 ^ s.root_bits)).map
      (fun j => (j, s.root.getD j 0))) := by
    intro p hp
    obtain ⟨j, hj, rfl⟩ := List.mem_map.mp hp
    have hj16 : j < 16 := by
      rw [hrb] at hj
      simpa using hj
    constructor
    · simp [TDB_HTRIE_BITS, BITS_PER_LONG]
      omega
    · by_cases hlen : j < s.root.length
      · have hmem : s.root.getD j 0 ∈ s.root := by
          rw [show s.root.getD j 0 = s.root[j] from by
            simp [List.getD, List.getElem?_eq_getElem hlen]]
          exact List.getElem_mem hlen
        exact href _ hmem
      · left
        simp [List.getD, List.getElem?_eq_none (by omega : s.root.length ≤ j)]
  refine ⟨?_, hnd, ?_⟩
  · rw [tdb_htrie_walk_trace, node_visit_trace_eq s 17 _ hl, hflat]
  · intro fn
    rw [tdb_htrie_walk, node_visit_go_first s fn 17 _ hl, hflat]

/-- Witness for C8 at the concrete two-record database `dbW`: the walk
trace lists both record bodies once, and a callback that rejects the
second body aborts the walk with its value 7. -/
theorem c8_witness :
    tdb_htrie_walk_trace dbW = .ok [1032, 2056] ∧
    tdb_htrie_walk dbW (fun b => if b = 2056 then 7 else 0) = .ok 7 := by
  have h := c8_walk_visits_each_live_record_once dbW (by decide)
  constructor
  · rw [h.1]
    decide
  · rw [h.2.2 (fun b => if b = 2056 then 7 else 0)]
    decide

/-- A word with the two lowest bits clear has a zero bit below 64, so the
find-zero result is a valid bit index. -/
theorem flz_le_63 (m : Nat) (h : m &&& 3 = 0) : flz m ≤ 63 := by
  have hmod : m % 4 = 0 := by
    have h2 := Nat.and_pow_two_sub_one_eq_mod m 2
    simp only [show (2 : Nat) ^ 2 - 1 = 3 by decide,
      show (2 : Nat) ^ 2 = 4 by decide] at h2
    rw [h] at h2
    omega
  have h0 : m.testBit 0 = false := by
    rw [Nat.testBit_to_div_mod]
    simp only [pow_zero, Nat.div_one, decide_eq_false_iff_not]
    omega
  have hmem : 0 ∈ (List.range 64).filter (fun i => ! m.testBit i) := by
    refine List.mem_filter.mpr ⟨by simp, by simp [h0]⟩
  have hne : (List.range 64).filter (fun i => ! m.testBit i) ≠ [] := by
    intro hnil
    rw [hnil] at hmem
    exact absurd hmem (by simp)
  unfold flz
  rw [List.getLast?_eq_getLast _ hne, Option.getD_some]
  have hmem2 := List.getLast_mem hne
  have := List.mem_range.mp (List.mem_filter.mp hmem2).1
  omega

/-- Bit 31 of an encoded reference is set. -/
theorem or_dbit_testBit31 (q : Nat) : (q ||| 2 ^ 31).testBit 31 = true := by
  rw [Nat.testBit_lor, Nat.testBit_two_pow_self, Bool.or_true]

/-- The data bit test succeeds on an encoded reference. -/
theorem or_dbit_and_ne (q : Nat) : (q ||| 2 ^ 31) &&& 2 ^ 31 ≠ 0 := by
  rw [Nat.and_two_pow, or_dbit_testBit31]
  simp

/-- Stripping the data bit from an encoded reference recovers the index. -/
theorem or_dbit_xor (q : Nat) (h : q < 2 ^ 31) :
    (q ||| 2 ^ 31) ^^^ 2 ^ 31 = q := by
  refine Nat.eq_of_testBit_eq fun i => ?_
  by_cases hi : (31 : Nat) = i
  · subst hi
    simp [Nat.testBit_xor, Nat.testBit_lor, Nat.testBit_two_pow_self,
      Nat.testBit_eq_false_of_lt h]
  · simp [Nat.testBit_xor, Nat.testBit_lor, Nat.testBit_two_pow_of_ne hi]

/-- An encoded reference never equals a plain offset below the data
bit. -/
theorem or_dbit_ne_of_lt (q off : Nat) (hoff : off < 2 ^ 31) :
    q ||| 2 ^ 31 ≠ off := by
  intro he
  have h31 := or_dbit_testBit31 q
  rw [he, Nat.testBit_eq_false_of_lt hoff] at h31
  exact absurd h31 (by simp)

/-- Decoding after encoding a 128-byte-aligned offset is the identity. -/
theorem i2o_o2di (off : Nat) (h : off % 128 = 0) :
    TDB_I2O (TDB_O2DI off) = off := by
  simp only [TDB_I2O, TDB_O2DI, TDB_HTRIE_MINDREC]
  omega

/-- Descend on a state whose addressed root slot is empty. -/
theorem descend_absent (s : TdbState) (key : Nat) (hrb : s.root_bits = 4)
    (hv : s.root.getD (key &&& 15) 0 = 0) :
    tdb_htrie_descend s key 0 = .ok (.absent 0 none) := by
  unfold tdb_htrie_descend
  rw [if_neg (by omega)]
  rw [hrb]
  simp only [show (2 : Nat) ^ 4 - 1 = 15 by decide, hv]
  rfl

/-- Descend on a state whose addressed root slot holds a decodable data
reference resolves it in one step. -/
theorem descend_found (s : TdbState) (key v : Nat) (hrb : s.root_bits = 4)
    (hv : s.root.getD (key &&& 15) 0 = v) (hd : v &&& TDB_HTRIE_DBIT ≠ 0)
    (hz : v ^^^ TDB_HTRIE_DBIT ≠ 0) :
    tdb_htrie_descend s key 0 =
      .ok (.found TDB_HTRIE_BITS (TDB_I2O (v ^^^ TDB_HTRIE_DBIT)) none) := by
  unfold tdb_htrie_descend
  rw [if_neg (by omega)]
  rw [hrb]
  simp only [show (2 : Nat) ^ 4 - 1 = 15 by decide, hv]
  show descend_loop s key 17 v 0 none = _
  unfold descend_loop
  rw [if_pos hd, if_neg hz, Nat.zero_add]

/-- The index of the first key slice is the low nibble. -/
theorem idx_zero (key : Nat) : TDB_HTRIE_IDX key 0 = key &&& 15 := by
  simp [TDB_HTRIE_IDX, TDB_HTRIE_KMASK, Nat.shiftRight_zero]

/-- Updating an existing key of an association list makes the lookup of
that key return the new value. -/
theorem alookup_aset_self {α : Type} (l : List (Nat × α)) (k : Nat) (v : α)
    (h : (alookup l k).isSome = true) : alookup (aset l k v) k = some v := by
  cases hf : l.find? (fun p => p.1 == k) with
  | none => rw [alookup, hf] at h; simp at h
  | some p0 =>
    have hp0 : p0.1 = k := by simpa using List.find?_some hf
    have hpred : ((fun p : Nat × α => p.1 == k) ∘
        (fun p => if p.1 == k then (k, v) else p)) =
        (fun p : Nat × α => p.1 == k) := by
      funext x
      by_cases hx : x.1 = k <;> simp [Function.comp, hx]
    unfold alookup aset
    rw [List.find?_map, hpred, hf]
    simp [hp0]

/-- Updating one key of an association list leaves the lookup of every
other key unchanged. -/
theorem alookup_aset_ne {α : Type} (l : List (Nat × α)) (k k2 : Nat) (v : α)
    (h : k2 ≠ k) : alookup (aset l k v) k2 = alookup l k2 := by
  have hpred : ((fun p : Nat × α => p.1 == k2) ∘
      (fun p => if p.1 == k then (k, v) else p)) =
      (fun p : Nat × α => p.1 == k2) := by
    funext x
    by_cases hx : x.1 = k
    · simp [Function.comp, hx, Ne.symm h]
    · simp [Function.comp, hx]
  unfold alookup aset
  rw [List.find?_map, hpred]
  cases hf : l.find? (fun p => p.1 == k2) with
  | none => simp
  | some p0 =>
    have hp0 : p0.1 = k2 := by simpa using List.find?_some hf
    have hne : ¬ p0.1 = k := by rw [hp0]; exact h
    simp [hne]

/-- `getD` at an in-bounds position just set. -/
theorem getD_set_self {α : Type} (l : List α) (i : Nat) (v d : α)
    (h : i < l.length) : (l.set i v).getD i d = v := by
  simp [List.getD, List.getElem?_set_self (by simpa using h)]

/-- `getD` at a position other than the one set. -/
theorem getD_set_ne {α : Type} (l : List α) (i j : Nat) (v d : α)
    (h : i ≠ j) : (l.set i v).getD j d = l.getD j d := by
  simp [List.getD, List.getElem?_set_ne h]

/-- `getD` inside the bounds is membership. -/
theorem getD_mem {α : Type} (l : List α) (i : Nat) (d : α)
    (h : i < l.length) : l.getD i d ∈ l := by
  rw [List.getD, List.get?_eq_getElem?, List.getElem?_eq_getElem h,
    Option.getD_some]
  exact List.getElem_mem h

/-- Bucket allocation on a state whose allocator sources are well placed:
it either fails, or yields a fresh zero-map full-length bucket at a
positive 128-aligned offset below the data bit, changing no root or
configuration field and no other bucket. -/
theorem alloc_bucket_spec (s : TdbState)
    (hsup : ∀ off ∈ s.bckt_supply, supplyOffOk s.buckets off)
    (hfree : freeHeadOk s.buckets s.free_bckt_h) :
    tdb_htrie_alloc_bucket s = .ok none ∨
    ∃ s' boff b', tdb_htrie_alloc_bucket s = .ok (some (s', boff)) ∧
      boff % 128 = 0 ∧ 0 < boff ∧ boff < 2 ^ 31 ∧
      bucketAt s' boff = some b' ∧ b'.col_map = 0 ∧
      b'.recs.length = TDB_HTRIE_BCKT_SLOTS_N ∧
      s'.root = s.root ∧ s'.root_bits = s.root_bits ∧
      s'.inplace = s.inplace ∧ s'.rec_len = s.rec_len := by
  by_cases hf : s.free_bckt_h ≠ 0
  · obtain ⟨hmod, hlt, hsome, hlen⟩ := hfree hf
    obtain ⟨b, hb⟩ := Option.isSome_iff_exists.mp hsome
    right
    refine ⟨setBucket { s with free_bckt_h := b.next, free_bckt_t := if b.next = 0 then 0 else s.free_bckt_t } s.free_bckt_h (tdb_htrie_init_bucket b), s.free_bckt_h, tdb_htrie_init_bucket b, ?_, hmod, ?_, hlt, ?_, rfl, ?_, rfl, rfl, rfl, rfl⟩
    · unfold tdb_htrie_alloc_bucket
      rw [if_pos hf]
      show (match bucketAt s s.free_bckt_h with
            | none => Except.error Violation.wildPointer
            | some b => _) = _
      rw [show bucketAt s s.free_bckt_h = some b from hb]
    · omega
    · show alookup (aset s.buckets s.free_bckt_h (tdb_htrie_init_bucket b))
        s.free_bckt_h = _
      exact alookup_aset_self _ _ _ hsome
    · show b.recs.length = TDB_HTRIE_BCKT_SLOTS_N
      rw [show alookup s.buckets s.free_bckt_h = some b from hb] at hlen
      simpa using hlen
  · cases hsp : s.bckt_supply with
    | nil =>
      left
      unfold tdb_htrie_alloc_bucket
      rw [if_neg hf, hsp]
    | cons off rest =>
      obtain ⟨hmod, hpos, hlt, hlen⟩ := hsup off
        (by rw [hsp]; exact List.mem_cons_self ..)
      right
      cases hbo : bucketAt s off with
      | some b =>
        refine ⟨setBucket { s with bckt_supply := rest } off (tdb_htrie_init_bucket b), off, tdb_htrie_init_bucket b, ?_, hmod, hpos, hlt, ?_, rfl, ?_, rfl, rfl, rfl, rfl⟩
        · unfold tdb_htrie_alloc_bucket
          rw [if_neg hf, hsp]
          show (match bucketAt { s with bckt_supply := rest } off with
                | some b => _ | none => _) = _
          rw [show bucketAt { s with bckt_supply := rest } off = some b from hbo]
        · show alookup (aset s.buckets off (tdb_htrie_init_bucket b)) off = _
          exact alookup_aset_self _ _ _
            (by rw [show alookup s.buckets off = some b from hbo]; rfl)
        · show b.recs.length = TDB_HTRIE_BCKT_SLOTS_N
          have h2 := hlen
            (by rw [show alookup s.buckets off = some b from hbo]; rfl)
          rw [show alookup s.buckets off = some b from hbo] at h2
          simpa using h2
      | none =>
        refine ⟨{ s with bckt_supply := rest, buckets := (off, freshBucket) :: s.buckets }, off, freshBucket, ?_, hmod, hpos, hlt, ?_, rfl, by simp [freshBucket], rfl, rfl, rfl, rfl⟩
        · unfold tdb_htrie_alloc_bucket
          rw [if_neg hf, hsp]
          show (match bucketAt { s with bckt_supply := rest } off with
                | some b => _ | none => _) = _
          rw [show bucketAt { s with bckt_supply := rest } off = none from hbo]
        · show alookup ((off, freshBucket) :: s.buckets) off = _
          simp [alookup, List.find?]

/-- A successful inplace record creation stores the requested key. -/
theorem create_rec_inplace_key (rl : Nat) (prior : TdbRec) (key : Nat)
    (data : Option Nat) (len : Nat) (r : TdbRec)
    (h : tdb_htrie_create_rec_inplace rl prior key data len = .ok r) :
    r.key = key := by
  unfold tdb_htrie_create_rec_inplace at h
  split at h
  · exact absurd h (by simp)
  · split at h
    · exact absurd h (by simp)
    · cases h; rfl

/-- A successful metadata write replaces exactly the addressed slot with a
record carrying the requested key. -/
theorem write_metadata_spec (inpl : Bool) (rl : Nat) (b : TdbHtrieBucket)
    (key : Nat) (data : Option Nat) (len slot recOff : Nat)
    (b1 : TdbHtrieBucket)
    (h : __htrie_bckt_write_metadata inpl rl b key data len slot recOff =
      .ok b1) :
    ∃ r, r.key = key ∧ b1 = { b with recs := b.recs.set slot r } := by
  unfold __htrie_bckt_write_metadata at h
  split at h
  · simp only [Bind.bind, Except.bind] at h
    cases hc : tdb_htrie_create_rec_inplace rl (b.recs.getD slot ⟨0, 0⟩) key
        data len with
    | error e => rw [hc] at h; exact absurd h (by simp)
    | ok r =>
      rw [hc] at h
      cases h
      exact ⟨r, create_rec_inplace_key _ _ _ _ _ _ hc, rfl⟩
  · cases h
    exact ⟨⟨key, recOff⟩, rfl, rfl⟩

/-- The slot-claim loop called at the slot of the lowest free bit: in the
sequential embedding the first acquisition matches, so success yields that
very slot, sets its bit, and stores a record with the requested key
there. -/
theorem insert_new_rec_spec (inpl : Bool) (rl fuel : Nat)
    (b : TdbHtrieBucket) (key : Nat) (data : Option Nat) (len recOff : Nat)
    (bf : TdbHtrieBucket) (slotF : Nat)
    (hth : tdb_htrie_bckt_burst_threshold (flz b.col_map) = false)
    (h : __htrie_bckt_insert_new_rec inpl rl (fuel + 1) b key data len
          (__htrie_bckt_bit2slot (flz b.col_map)) recOff =
        .ok (some (bf, slotF))) :
    slotF = __htrie_bckt_bit2slot (flz b.col_map) ∧
    bf.col_map = b.col_map ||| 2 ^ flz b.col_map ∧
    ∃ r, r.key = key ∧ bf.recs = b.recs.set slotF r := by
  simp only [__htrie_bckt_insert_new_rec, Bind.bind, Except.bind] at h
  cases hw1 : __htrie_bckt_write_metadata inpl rl b key data len
      (__htrie_bckt_bit2slot (flz b.col_map)) recOff with
  | error e => rw [hw1] at h; exact absurd h (by simp)
  | ok b1 =>
    simp only [hw1] at h
    obtain ⟨r1, hr1k, hb1⟩ := write_metadata_spec _ _ _ _ _ _ _ _ _ hw1
    have hcm1 : b1.col_map = b.col_map := by rw [hb1]
    simp only [show __htrie_bckt_acquire_empty_slot b1 =
        some (__htrie_bckt_bit2slot (flz b.col_map),
          { b1 with col_map := b1.col_map ||| 2 ^ flz b.col_map }) from by
      unfold __htrie_bckt_acquire_empty_slot
      rw [hcm1, if_neg (by rw [hth]; exact Bool.false_ne_true)],
      eq_self_iff_true, if_true, Bind.bind, Except.bind] at h
    cases hw2 : __htrie_bckt_write_metadata inpl rl
        { b1 with col_map := b1.col_map ||| 2 ^ flz b.col_map } key data len
        (__htrie_bckt_bit2slot (flz b.col_map)) recOff with
    | error e => rw [hw2] at h; exact absurd h (by simp)
    | ok b3 =>
      simp only [hw2, Except.ok.injEq, Option.some.injEq, Prod.mk.injEq] at h
      obtain ⟨r2, hr2k, hb3⟩ := write_metadata_spec _ _ _ _ _ _ _ _ _ hw2
      obtain ⟨hbf, hslot⟩ := h
      refine ⟨hslot.symm, ?_, r2, hr2k, ?_⟩
      · rw [← hbf, hb3, ← hcm1]
      · rw [← hbf, hb3, ← hslot, hb1]
        exact List.set_set ..

/-- The bucket scan finds a record once some slot is occupied and carries
the scanned key. -/
theorem bscan_isSome (s : TdbState) (b : TdbHtrieBucket) (boff key i : Nat)
    (hi : i < TDB_HTRIE_BCKT_SLOTS_N)
    (hbit : b.col_map.testBit (__htrie_bckt_slot2bit i) = true)
    (hkey : (b.recs.getD i ⟨0, 0⟩).key = key) :
    (tdb_htrie_bscan_for_rec s b boff key 0).isSome = true := by
  unfold tdb_htrie_bscan_for_rec
  have hex : ((((List.range TDB_HTRIE_BCKT_SLOTS_N).drop 0)).find? (fun j =>
      b.col_map.testBit (__htrie_bckt_slot2bit j) &&
      (b.recs.getD j ⟨0, 0⟩).key == key)).isSome = true :=
    List.find?_isSome.mpr ⟨i, by simpa using hi,
      by simp only [hbit, Bool.true_and, beq_iff_eq]; exact hkey⟩
  obtain ⟨j, hj⟩ := Option.isSome_iff_exists.mp hex
  rw [hj]
  rfl

/-- With a positive bit count the retry loop can only fail: the re-entered
descend trips its `BUG_ON(*bits > 0)`. -/
theorem insert_loop_pos_bits_ne_ok (key : Nat) (data : Option Nat)
    (recOff len f : Nat) (s : TdbState) (bits : Nat) (out : InsertOut)
    (hb : 0 < bits) : insert_loop key data recOff len f s bits ≠ .ok out := by
  cases f with
  | zero => simp [insert_loop]
  | succ f =>
    intro h
    simp only [insert_loop, Bind.bind, Except.bind, tdb_htrie_descend,
      if_pos hb] at h
    exact absurd h (by simp)

/-- The burst phase of insert never commits a record: success falls into
`err_data_free` and so does `-ENOMEM` or key exhaustion. -/
theorem burst_phase_stored_false (key : Nat) (data : Option Nat)
    (recOff len : Nat) : ∀ (fuel : Nat) (s : TdbState) (boff bits : Nat)
    (node : NodeRef) (out : InsertOut),
    insert_burst_phase key data recOff len fuel s boff bits node =
      .ok (.inl out) → out.stored = false := by
  intro fuel
  induction fuel with
  | zero =>
    intro s boff bits node out h
    simp [insert_burst_phase] at h
  | succ f ih =>
    intro s boff bits node out h
    simp only [insert_burst_phase, Bind.bind, Except.bind] at h
    cases hbr : tdb_htrie_bckt_burst s boff boff key bits node with
    | error e => rw [hbr] at h; exact absurd h (by simp)
    | ok res =>
      cases res with
      | done s2 n =>
        simp only [hbr, Except.ok.injEq, Sum.inl.injEq] at h
        rw [← h]
      | enomem s2 =>
        simp only [hbr, Except.ok.injEq, Sum.inl.injEq] at h
        rw [← h]
      | eagain s2 => simp [hbr] at h
      | again s2 ioff =>
        simp only [hbr] at h
        by_cases hres : TDB_HTRIE_RESOLVED (bits + TDB_HTRIE_BITS) = true
        · rw [if_pos hres] at h
          simp only [Except.ok.injEq, Sum.inl.injEq] at h
          rw [← h]
        · rw [if_neg hres] at h
          exact ih _ _ _ _ _ h

/-- The bit count handed back by the burst phase's restart signal never
shrinks below the bit count it started from. -/
theorem burst_phase_inr_bits (key : Nat) (data : Option Nat)
    (recOff len : Nat) : ∀ (fuel : Nat) (s : TdbState) (boff bits : Nat)
    (node : NodeRef) (s2 : TdbState) (b2 : Nat),
    insert_burst_phase key data recOff len fuel s boff bits node =
      .ok (.inr (s2, b2)) → bits ≤ b2 := by
  intro fuel
  induction fuel with
  | zero =>
    intro s boff bits node s2 b2 h
    simp [insert_burst_phase] at h
  | succ f ih =>
    intro s boff bits node s2 b2 h
    simp only [insert_burst_phase, Bind.bind, Except.bind] at h
    cases hbr : tdb_htrie_bckt_burst s boff boff key bits node with
    | error e => rw [hbr] at h; exact absurd h (by simp)
    | ok res =>
      cases res with
      | done s3 n => simp [hbr] at h
      | enomem s3 => simp [hbr] at h
      | eagain s3 =>
        simp only [hbr, Except.ok.injEq, Sum.inr.injEq, Prod.mk.injEq] at h
        omega
      | again s3 ioff =>
        simp only [hbr] at h
        by_cases hres : TDB_HTRIE_RESOLVED (bits + TDB_HTRIE_BITS) = true
        · rw [if_pos hres] at h
          simp at h
        · rw [if_neg hres] at h
          have := ih _ _ _ _ _ _ h
          omega

/-- Writing the out-of-line data record header touches only the
variable-record heap. -/
theorem create_rec_data_preserves (s : TdbState) (off : Nat)
    (data : Option Nat) (len : Nat) (s2 : TdbState)
    (h : tdb_htrie_create_rec_data s off data len = .ok s2) :
    s2.root = s.root ∧ s2.root_bits = s.root_bits ∧
    s2.buckets = s.buckets ∧ s2.inplace = s.inplace ∧
    s2.rec_len = s.rec_len ∧ s2.bckt_supply = s.bckt_supply ∧
    s2.free_bckt_h = s.free_bckt_h := by
  unfold tdb_htrie_create_rec_data at h
  split at h
  · exact absurd h (by simp)
  · split at h
    · split at h
      · exact absurd h (by simp)
      · cases h
        exact ⟨rfl, rfl, rfl, rfl, rfl, rfl, rfl⟩
    · cases h
      exact ⟨rfl, rfl, rfl, rfl, rfl, rfl, rfl⟩

/-- The insert well-formedness predicate only looks at the root, the
configured fanout, the buckets memory, the allocator supply and the free
queue, so it transports along equality of those fields. -/
theorem wfins_congr (s s2 : TdbState) (hroot : s2.root = s.root)
    (hrb : s2.root_bits = s.root_bits) (hb : s2.buckets = s.buckets)
    (hsup : s2.bckt_supply = s.bckt_supply)
    (hfh : s2.free_bckt_h = s.free_bckt_h) (h : WFins s) : WFins s2 := by
  obtain ⟨h1, h2, h3, h4, h5⟩ := h
  rw [WFins, hroot, hrb, hb, hsup, hfh]
  exact ⟨h1, h2, h3, h4, h5⟩

/-- Core of the C3 claim: on a well-formed state, whenever one round of
the insert retry loop reports a committed record, looking the key up in
the post state resolves to a bucket that holds a record with that key. -/
theorem insert_loop_stored_found (key : Nat) (data : Option Nat)
    (recOff len fuel : Nat) (s : TdbState) (out : InsertOut) (hwf : WFins s)
    (h : insert_loop key data recOff len (fuel + 1) s 0 = .ok out)
    (hst : out.stored = true) :
    ∃ boff b, tdb_htrie_lookup out.s key = .ok (some boff) ∧
      bucketAt out.s boff = some b ∧
      (tdb_htrie_bscan_for_rec out.s b boff key 0).isSome = true := by
  obtain ⟨hrb, hrlen, hroot, hsup, hfree⟩ := hwf
  have hi0lt : key &&& 15 < 16 := lt_of_le_of_lt Nat.and_le_right (by decide)
  have hvmem : s.root.getD (key &&& 15) 0 ∈ s.root :=
    getD_mem _ _ _ (by rw [hrlen]; exact hi0lt)
  rcases hroot _ hvmem with hv0 | ⟨hd, hz, hlt, hbok⟩
  · -- the root slot is empty: the fresh-bucket path
    have hdesc := descend_absent s key hrb hv0
    simp only [insert_loop, Bind.bind, Except.bind, hdesc] at h
    rcases alloc_bucket_spec s hsup hfree with halloc |
      ⟨s', boff, b', halloc, hmod, hpos, hblt, hb', hcm0, hblen, hpr, hprb,
       hpi, hprl⟩
    · simp only [__htrie_insert_new_bckt, Bind.bind, Except.bind, halloc,
        Except.ok.injEq] at h
      rw [← h] at hst
      simp at hst
    · cases hw : __htrie_bckt_write_metadata s'.inplace s'.rec_len b' key data
          len 0 recOff with
      | error e =>
        simp only [__htrie_insert_new_bckt, Bind.bind, Except.bind, halloc,
          hb', hw] at h
        exact absurd h (by simp)
      | ok b1 =>
        obtain ⟨r, hrk, hb1⟩ := write_metadata_spec _ _ _ _ _ _ _ _ _ hw
        simp only [__htrie_insert_new_bckt, Bind.bind, Except.bind, halloc,
          hb', hw, nodeSlotGet, nodeSlotSet, setBucket] at h
        rw [if_pos (show s'.root.getD (TDB_HTRIE_IDX key 0) 0 = 0 from by
          rw [hpr, idx_zero]; exact hv0)] at h
        simp only [Except.ok.injEq] at h
        have hqlt : TDB_O2DI boff < 2 ^ 31 := by
          unfold TDB_O2DI TDB_HTRIE_MINDREC
          omega
        have hqnz : TDB_O2DI boff ≠ 0 := by
          unfold TDB_O2DI TDB_HTRIE_MINDREC
          omega
        have hxor : (TDB_O2DI boff ||| TDB_HTRIE_DBIT) ^^^ TDB_HTRIE_DBIT =
            TDB_O2DI boff := by
          unfold TDB_HTRIE_DBIT
          exact or_dbit_xor _ hqlt
        have hs4root : out.s.root = s'.root.set (TDB_HTRIE_IDX key 0)
            (TDB_O2DI boff ||| TDB_HTRIE_DBIT) := by rw [← h]
        have hs4rb : out.s.root_bits = s'.root_bits := by rw [← h]
        have hs4bkts : out.s.buckets = aset s'.buckets boff
            { b1 with col_map := TDB_HTRIE_SLOT2BIT TDB_HTRIE_COLL_MAX } := by
          rw [← h]
        refine ⟨boff,
          { b1 with col_map := TDB_HTRIE_SLOT2BIT TDB_HTRIE_COLL_MAX },
          ?_, ?_, ?_⟩
        · have hdesc2 := descend_found out.s key
            (TDB_O2DI boff ||| TDB_HTRIE_DBIT)
            (by rw [hs4rb, hprb]; exact hrb)
            (by
              rw [hs4root, idx_zero]
              exact getD_set_self _ _ _ _ (by rw [hpr, hrlen]; exact hi0lt))
            (show (TDB_O2DI boff ||| TDB_HTRIE_DBIT) &&& TDB_HTRIE_DBIT ≠ 0
              from by unfold TDB_HTRIE_DBIT; exact or_dbit_and_ne _)
            (by rw [hxor]; exact hqnz)
          simp only [tdb_htrie_lookup, Bind.bind, Except.bind, hdesc2]
          rw [hxor, i2o_o2di _ hmod]
        · show alookup out.s.buckets boff = _
          rw [hs4bkts]
          exact alookup_aset_self _ _ _
            (by rw [show alookup s'.buckets boff = some b' from hb']; rfl)
        · apply bscan_isSome _ _ _ _ 0 (by decide)
          · show Nat.testBit (TDB_HTRIE_SLOT2BIT TDB_HTRIE_COLL_MAX)
              (__htrie_bckt_slot2bit 0) = true
            simp only [TDB_HTRIE_SLOT2BIT, TDB_HTRIE_COLL_MAX,
              __htrie_bckt_slot2bit, Nat.sub_zero]
            exact Nat.testBit_two_pow_self
          · show (b1.recs.getD 0 ⟨0, 0⟩).key = key
            rw [hb1]
            show ((b'.recs.set 0 r).getD 0 ⟨0, 0⟩).key = key
            rw [getD_set_self _ _ _ _ (by rw [hblen]; decide)]
            exact hrk
  · -- the root slot resolves to a bucket
    obtain ⟨hsome, hlen62, hlow⟩ := hbok
    obtain ⟨b, hb⟩ := Option.isSome_iff_exists.mp hsome
    rw [hb, Option.getD_some] at hlen62 hlow
    have hdesc := descend_found s key (s.root.getD (key &&& 15) 0) hrb rfl
      hd hz
    simp only [insert_loop, Bind.bind, Except.bind, hdesc, bucketAt, hb] at h
    have hr4 : TDB_HTRIE_RESOLVED TDB_HTRIE_BITS = false := by decide
    by_cases hth : tdb_htrie_bckt_burst_threshold (flz b.col_map) = true
    · rw [if_neg (not_not_intro hth), hr4, if_neg Bool.false_ne_true,
        if_neg (lt_irrefl _)] at h
      cases hbp : insert_burst_phase key data recOff len 17 s
          (TDB_I2O (s.root.getD (key &&& 15) 0 ^^^ TDB_HTRIE_DBIT))
          TDB_HTRIE_BITS none with
      | error e => rw [hbp] at h; exact absurd h (by simp)
      | ok r =>
        cases r with
        | inl out' =>
          simp only [hbp, Except.ok.injEq] at h
          have hsf := burst_phase_stored_false key data recOff len 17 s _
            TDB_HTRIE_BITS none out' hbp
          rw [h] at hsf
          rw [hsf] at hst
          exact absurd hst (by simp)
        | inr p =>
          obtain ⟨s2, b2⟩ := p
          simp only [hbp] at h
          have hb2 : (4 : Nat) ≤ b2 := burst_phase_inr_bits key data recOff
            len 17 s _ TDB_HTRIE_BITS none s2 b2 hbp
          exact absurd h
            (insert_loop_pos_bits_ne_ok _ _ _ _ _ _ _ _ (by omega))
    · have hth' : tdb_htrie_bckt_burst_threshold (flz b.col_map) = false := by
        rwa [Bool.not_eq_true] at hth
      rw [if_pos hth] at h
      cases hins : __htrie_bckt_insert_new_rec s.inplace s.rec_len 64 b key
          data len (__htrie_bckt_bit2slot (flz b.col_map)) recOff with
      | error e => rw [hins] at h; exact absurd h (by simp)
      | ok oRes =>
        cases oRes with
        | none =>
          simp only [hins, hr4, Bool.false_eq_true, if_false,
            if_neg (lt_irrefl TDB_HTRIE_BITS)] at h
          cases hbp : insert_burst_phase key data recOff len 17 s
              (TDB_I2O (s.root.getD (key &&& 15) 0 ^^^ TDB_HTRIE_DBIT))
              TDB_HTRIE_BITS none with
          | error e => rw [hbp] at h; exact absurd h (by simp)
          | ok r =>
            cases r with
            | inl out' =>
              simp only [hbp, Except.ok.injEq] at h
              have hsf := burst_phase_stored_false key data recOff len 17 s _
                TDB_HTRIE_BITS none out' hbp
              rw [h] at hsf
              rw [hsf] at hst
              exact absurd hst (by simp)
            | inr p =>
              obtain ⟨s2, b2⟩ := p
              simp only [hbp] at h
              have hb2 : (4 : Nat) ≤ b2 := burst_phase_inr_bits key data
                recOff len 17 s _ TDB_HTRIE_BITS none s2 b2 hbp
              exact absurd h
                (insert_loop_pos_bits_ne_ok _ _ _ _ _ _ _ _ (by omega))
        | some pr =>
          obtain ⟨bf, slotF⟩ := pr
          obtain ⟨hslot, hcm, r, hrk, hrecs⟩ := insert_new_rec_spec s.inplace
            s.rec_len 63 b key data len recOff bf slotF hth' hins
          simp only [hins, Except.ok.injEq] at h
          rw [← h]
          have hle63 : flz b.col_map ≤ 63 := flz_le_63 _ hlow
          have hge2 : 2 ≤ flz b.col_map := by
            simp only [tdb_htrie_bckt_burst_threshold,
              TDB_HTRIE_BURST_MIN_BITS, decide_eq_false_iff_not,
              Nat.not_lt] at hth'
            exact hth'
          have hsltb : slotF < TDB_HTRIE_BCKT_SLOTS_N := by
            rw [hslot]
            unfold __htrie_bckt_bit2slot TDB_HTRIE_COLL_MAX
              TDB_HTRIE_BCKT_SLOTS_N
            omega
          refine ⟨TDB_I2O (s.root.getD (key &&& 15) 0 ^^^ TDB_HTRIE_DBIT),
            bf, ?_, ?_, ?_⟩
          · have hdesc2 := descend_found
              (setBucket s
                (TDB_I2O (s.root.getD (key &&& 15) 0 ^^^ TDB_HTRIE_DBIT)) bf)
              key (s.root.getD (key &&& 15) 0) hrb rfl hd hz
            simp only [tdb_htrie_lookup, Bind.bind, Except.bind, hdesc2]
          · show alookup (aset s.buckets _ bf) _ = some bf
            exact alookup_aset_self _ _ _ (by rw [hb]; rfl)
          · apply bscan_isSome _ _ _ _ slotF hsltb
            · have hb2s : __htrie_bckt_slot2bit slotF = flz b.col_map := by
                rw [hslot]
                unfold __htrie_bckt_slot2bit __htrie_bckt_bit2slot
                  TDB_HTRIE_COLL_MAX
                omega
              rw [hb2s, hcm, Nat.testBit_lor, Nat.testBit_two_pow_self,
                Bool.or_true]
            · rw [hrecs, getD_set_self _ _ _ _ (by rw [hlen62]; exact hsltb)]
              exact hrk

/-- With the configured record length, the inplace record constructor
never trips its length assertion. -/
theorem create_rec_inplace_no_lm (rl : Nat) (prior : TdbRec) (key : Nat)
    (data : Option Nat) (len : Nat) (hlen : len = rl) :
    tdb_htrie_create_rec_inplace rl prior key data len ≠
      .error .lenMismatch := by
  unfold tdb_htrie_create_rec_inplace
  by_cases h1 : prior.key ≠ 0
  · rw [if_pos h1]; simp
  · rw [if_neg h1, if_neg (by omega)]
    simp

/-- With the configured record length, the metadata write never trips the
length assertion. -/
theorem write_metadata_no_lm (inpl : Bool) (rl : Nat) (b : TdbHtrieBucket)
    (key : Nat) (data : Option Nat) (len slot recOff : Nat)
    (hlen : len = rl) :
    __htrie_bckt_write_metadata inpl rl b key data len slot recOff ≠
      .error .lenMismatch := by
  unfold __htrie_bckt_write_metadata
  split
  · simp only [Bind.bind, Except.bind]
    cases hc : tdb_htrie_create_rec_inplace rl (b.recs.getD slot ⟨0, 0⟩) key
        data len with
    | error e =>
      intro h
      simp only [Except.error.injEq] at h
      rw [h] at hc
      exact create_rec_inplace_no_lm _ _ _ _ _ hlen hc
    | ok r => simp
  · simp

/-- The copy during redistribution always creates with the configured
record length, so it never trips the length assertion. -/
theorem copy_metadata_no_lm (inpl : Bool) (rl : Nat) (b : TdbHtrieBucket)
    (rec : TdbRec) :
    __htrie_bckt_copy_metadata inpl rl b rec ≠ .error .lenMismatch := by
  intro h
  simp only [__htrie_bckt_copy_metadata, Bind.bind, Except.bind] at h
  by_cases ht : tdb_htrie_bckt_burst_threshold (flz b.col_map) = true
  · rw [if_pos ht] at h; simp at h
  · rw [if_neg ht] at h
    split at h
    · split at h
      · rename_i e hc
        simp only [Except.error.injEq] at h
        rw [h] at hc
        exact create_rec_inplace_no_lm _ _ _ _ _ rfl hc
      · simp at h
    · simp at h

/-- Bucket allocation can only fail with a wild pointer, never with the
length assertion. -/
theorem alloc_bucket_no_lm (s : TdbState) :
    tdb_htrie_alloc_bucket s ≠ .error .lenMismatch := by
  intro h
  simp only [tdb_htrie_alloc_bucket] at h
  split at h
  · split at h <;> simp at h
  · split at h
    · simp at h
    · split at h <;> simp at h

/-- Bucket allocation never changes the database configuration. -/
theorem alloc_bucket_preserves (s s' : TdbState) (boff : Nat)
    (h : tdb_htrie_alloc_bucket s = .ok (some (s', boff))) :
    s'.inplace = s.inplace ∧ s'.rec_len = s.rec_len := by
  simp only [tdb_htrie_alloc_bucket] at h
  split at h
  · split at h
    · exact absurd h (by simp)
    · cases h; exact ⟨rfl, rfl⟩
  · split at h
    · exact absurd h (by simp)
    · split at h
      · cases h; exact ⟨rfl, rfl⟩
      · cases h; exact ⟨rfl, rfl⟩

/-- Node slot reads fail only with a wild pointer. -/
theorem nodeSlotGet_no_lm (s : TdbState) (node : NodeRef) (i : Nat) :
    nodeSlotGet s node i ≠ .error .lenMismatch := by
  unfold nodeSlotGet
  cases node with
  | none => simp
  | some off => cases h2 : alookup s.nodes off <;> simp [h2]

/-- Node slot writes fail only with a wild pointer. -/
theorem nodeSlotSet_no_lm (s : TdbState) (node : NodeRef) (i v : Nat) :
    nodeSlotSet s node i v ≠ .error .lenMismatch := by
  unfold nodeSlotSet
  cases node with
  | none => simp
  | some off => cases h2 : alookup s.nodes off <;> simp [h2]

/-- Pushing a bucket onto the reclamation queue fails only with a wild
pointer. -/
theorem reclaim_bucket_no_lm (s : TdbState) (off : Nat) :
    tdb_htrie_reclaim_bucket s off ≠ .error .lenMismatch := by
  unfold tdb_htrie_reclaim_bucket
  split
  · split <;> simp
  · simp

/-- The descend loop fails only with the fuel, zero-reference, wild
pointer or resolved assertions, never the length assertion. -/
theorem descend_loop_no_lm (s : TdbState) (key : Nat) :
    ∀ (fuel o bits : Nat) (node : NodeRef),
    descend_loop s key fuel o bits node ≠ .error .lenMismatch := by
  intro fuel
  induction fuel with
  | zero => intro o bits node; simp [descend_loop]
  | succ f ih =>
    intro o bits node
    simp only [descend_loop]
    by_cases h1 : o &&& TDB_HTRIE_DBIT ≠ 0
    · rw [if_pos h1]
      by_cases h2 : o ^^^ TDB_HTRIE_DBIT = 0
      · rw [if_pos h2]; simp
      · rw [if_neg h2]; simp
    · rw [if_neg h1]
      by_cases h2 : o = 0
      · rw [if_pos h2]; simp
      · rw [if_neg h2]
        cases h3 : alookup s.nodes (TDB_I2O o) with
        | none => simp [h3]
        | some shifts =>
          simp only [h3]
          by_cases h4 : TDB_HTRIE_RESOLVED (bits + TDB_HTRIE_BITS) = true
          · rw [if_pos h4]; simp
          · rw [if_neg h4]; exact ih _ _ _

/-- Descend never trips the length assertion. -/
theorem descend_no_lm (s : TdbState) (key bits : Nat) :
    tdb_htrie_descend s key bits ≠ .error .lenMismatch := by
  unfold tdb_htrie_descend
  split
  · simp
  · exact descend_loop_no_lm s key _ _ _ _

/-- The redistribution loop never trips the length assertion: every copy
uses the configured record length. -/
theorem move_go_no_lm (bits ioff boff : Nat) (nmf : Bool) (map : Nat)
    (slots : List Nat) :
    ∀ (s : TdbState) (nm0 : Nat),
    __htrie_bckt_move_records_go bits ioff boff nmf map slots s nm0 ≠
      .error .lenMismatch := by
  induction slots with
  | nil => intro s nm0; simp [__htrie_bckt_move_records_go]
  | cons sl rest ih =>
    intro s nm0 h
    simp only [__htrie_bckt_move_records_go, Bind.bind, Except.bind] at h
    by_cases hbit : map.testBit (__htrie_bckt_slot2bit sl) = true
    · rw [if_neg (by simp [hbit])] at h
      split at h
      · simp at h
      · split at h
        · rename_i e he
          simp only [Except.error.injEq] at h
          rw [h] at he
          exact nodeSlotGet_no_lm _ _ _ he
        · split at h
          · split at h
            · split at h
              · rename_i e he
                simp only [Except.error.injEq] at h
                rw [h] at he
                exact nodeSlotSet_no_lm _ _ _ _ he
              · exact ih _ _ h
            · split at h
              · rename_i e he
                simp only [Except.error.injEq] at h
                rw [h] at he
                exact alloc_bucket_no_lm _ he
              · split at h
                · split at h
                  · simp at h
                  · split at h
                    · rename_i e he
                      simp only [Except.error.injEq] at h
                      rw [h] at he
                      exact copy_metadata_no_lm _ _ _ _ he
                    · split at h
                      · rename_i e he
                        simp only [Except.error.injEq] at h
                        rw [h] at he
                        exact nodeSlotSet_no_lm _ _ _ _ he
                      · exact ih _ _ h
                · split at h
                  · simp at h
                  · split at h
                    · rename_i e he
                      simp only [Except.error.injEq] at h
                      rw [h] at he
                      exact nodeSlotSet_no_lm _ _ _ _ he
                    · exact ih _ _ h
          · split at h
            · split at h
              · simp at h
              · split at h
                · rename_i e he
                  simp only [Except.error.injEq] at h
                  rw [h] at he
                  exact copy_metadata_no_lm _ _ _ _ he
                · exact ih _ _ h
            · exact ih _ _ h
    · rw [if_pos (by simp [hbit])] at h
      exact ih _ _ h

/-- Record redistribution never trips the length assertion. -/
theorem move_records_no_lm (s : TdbState) (boff map bits ioff : Nat)
    (nmf : Bool) (nm : Nat) :
    __htrie_bckt_move_records s boff map bits ioff nmf nm ≠
      .error .lenMismatch := by
  unfold __htrie_bckt_move_records
  exact move_go_no_lm _ _ _ _ _ _ _ _

/-- The burst reclaim loop never trips the length assertion. -/
theorem burst_free_go_no_lm : ∀ (l : List Nat) (s : TdbState),
    burst_free_go l s ≠ .error .lenMismatch := by
  intro l
  induction l with
  | nil => intro s; simp [burst_free_go]
  | cons v rest ih =>
    intro s h
    simp only [burst_free_go, Bind.bind, Except.bind] at h
    split at h
    · split at h
      · rename_i e he
        simp only [Except.error.injEq] at h
        rw [h] at he
        exact reclaim_bucket_no_lm _ _ he
      · exact ih _ h
    · exact ih _ h

/-- The burst error path never trips the length assertion. -/
theorem burst_free_no_lm (s : TdbState) (ioff : Nat) :
    tdb_htrie_bckt_burst_free s ioff ≠ .error .lenMismatch := by
  intro h
  simp only [tdb_htrie_bckt_burst_free, Bind.bind, Except.bind] at h
  split at h
  · rename_i e he
    simp only [Except.error.injEq] at h
    rw [h] at he
    exact burst_free_go_no_lm _ _ he
  · simp at h

/-- The collision-map swap loop never trips the length assertion. -/
theorem burst_swap_loop_no_lm (boff bits ioff : Nat) :
    ∀ (fuel : Nat) (s : TdbState) (map nm : Nat),
    burst_swap_loop boff bits ioff fuel s map nm ≠ .error .lenMismatch := by
  intro fuel
  induction fuel with
  | zero => intro s map nm; simp [burst_swap_loop]
  | succ f ih =>
    intro s map nm h
    simp only [burst_swap_loop, Bind.bind, Except.bind] at h
    split at h
    · simp at h
    · split at h
      · simp at h
      · split at h
        · rename_i e he
          simp only [Except.error.injEq] at h
          rw [h] at he
          exact move_records_no_lm _ _ _ _ _ _ _ he
        · split at h
          · exact ih _ _ _ h
          · simp at h

/-- A bucket burst never trips the length assertion. -/
theorem bckt_burst_no_lm (s : TdbState) (boff old_off key bits : Nat)
    (node : NodeRef) :
    tdb_htrie_bckt_burst s boff old_off key bits node ≠
      .error .lenMismatch := by
  intro h
  simp only [tdb_htrie_bckt_burst, Bind.bind, Except.bind] at h
  split at h
  · simp at h
  · split at h
    · simp at h
    · split at h
      · rename_i e he
        simp only [Except.error.injEq] at h
        rw [h] at he
        exact move_records_no_lm _ _ _ _ _ _ _ he
      · split at h
        · split at h
          · rename_i e he
            simp only [Except.error.injEq] at h
            rw [h] at he
            exact burst_free_no_lm _ _ he
          · simp at h
        · split at h
          · rename_i e he
            simp only [Except.error.injEq] at h
            rw [h] at he
            exact nodeSlotGet_no_lm _ _ _ he
          · split at h
            · split at h
              · rename_i e he
                simp only [Except.error.injEq] at h
                rw [h] at he
                exact burst_free_no_lm _ _ he
              · simp at h
            · split at h
              · rename_i e he
                simp only [Except.error.injEq] at h
                rw [h] at he
                exact nodeSlotSet_no_lm _ _ _ _ he
              · split at h
                · rename_i e he
                  simp only [Except.error.injEq] at h
                  rw [h] at he
                  exact burst_swap_loop_no_lm _ _ _ _ _ _ _ he
                · split at h <;> simp at h

/-- The insert burst phase never trips the length assertion. -/
theorem burst_phase_no_lm (key : Nat) (data : Option Nat)
    (recOff len : Nat) :
    ∀ (fuel : Nat) (s : TdbState) (boff bits : Nat) (node : NodeRef),
    insert_burst_phase key data recOff len fuel s boff bits node ≠
      .error .lenMismatch := by
  intro fuel
  induction fuel with
  | zero => intro s boff bits node; simp [insert_burst_phase]
  | succ f ih =>
    intro s boff bits node h
    simp only [insert_burst_phase, Bind.bind, Except.bind] at h
    split at h
    · rename_i e he
      simp only [Except.error.injEq] at h
      rw [h] at he
      exact bckt_burst_no_lm _ _ _ _ _ _ he
    · split at h
      · simp at h
      · simp at h
      · simp at h
      · split at h
        · simp at h
        · exact ih _ _ _ _ h

/-- The slot-claim loop never trips the length assertion when called with
the configured record length. -/
theorem insert_new_rec_no_lm (inpl : Bool) (rl : Nat) :
    ∀ (fuel : Nat) (b : TdbHtrieBucket) (key : Nat) (data : Option Nat)
    (len slot recOff : Nat), len = rl →
    __htrie_bckt_insert_new_rec inpl rl fuel b key data len slot recOff ≠
      .error .lenMismatch := by
  intro fuel
  induction fuel with
  | zero => intro b key data len slot recOff hlen
            simp [__htrie_bckt_insert_new_rec]
  | succ f ih =>
    intro b key data len slot recOff hlen h
    simp only [__htrie_bckt_insert_new_rec, Bind.bind, Except.bind] at h
    split at h
    · rename_i e he
      simp only [Except.error.injEq] at h
      rw [h] at he
      exact write_metadata_no_lm _ _ _ _ _ _ _ _ hlen he
    · split at h
      · simp at h
      · split at h
        · split at h
          · rename_i e he
            simp only [Except.error.injEq] at h
            rw [h] at he
            exact write_metadata_no_lm _ _ _ _ _ _ _ _ hlen he
          · simp at h
        · exact ih _ _ _ _ _ _ hlen h

/-- Publishing a fresh bucket never trips the length assertion when
called with the configured record length. -/
theorem insert_new_bckt_no_lm (s : TdbState) (key bits : Nat)
    (node : NodeRef) (data : Option Nat) (len recOff : Nat)
    (hlen : len = s.rec_len) :
    __htrie_insert_new_bckt s key bits node data len recOff ≠
      .error .lenMismatch := by
  intro h
  simp only [__htrie_insert_new_bckt, Bind.bind, Except.bind] at h
  split at h
  · rename_i e he
    simp only [Except.error.injEq] at h
    rw [h] at he
    exact alloc_bucket_no_lm _ he
  · rename_i v hv
    split at h
    · simp at h
    · rename_i s' boff
      obtain ⟨hpi, hprl⟩ := alloc_bucket_preserves _ _ _ hv
      split at h
      · simp at h
      · split at h
        · rename_i e he
          simp only [Except.error.injEq] at h
          rw [h] at he
          exact write_metadata_no_lm _ _ _ _ _ _ _ _
            (by rw [hlen, hprl]) he
        · split at h
          · rename_i e he
            simp only [Except.error.injEq] at h
            rw [h] at he
            exact nodeSlotGet_no_lm _ _ _ he
          · split at h
            · split at h
              · rename_i e he
                simp only [Except.error.injEq] at h
                rw [h] at he
                exact nodeSlotSet_no_lm _ _ _ _ he
              · simp at h
            · simp at h

/-- The CAS-retry state of a failed fresh-bucket publication keeps the
configured record length. -/
theorem insert_new_bckt_eagain_rec_len (s : TdbState) (key bits : Nat)
    (node : NodeRef) (data : Option Nat) (len recOff : Nat) (s2 : TdbState)
    (h : __htrie_insert_new_bckt s key bits node data len recOff =
      .ok (.eagain s2)) :
    s2.rec_len = s.rec_len := by
  simp only [__htrie_insert_new_bckt, Bind.bind, Except.bind] at h
  split at h
  · simp at h
  · rename_i v hv
    split at h
    · simp at h
    · rename_i s' boff
      split at h
      · simp at h
      · split at h
        · simp at h
        · split at h
          · simp at h
          · split at h
            · split at h
              · simp at h
              · simp at h
            · simp only [Except.ok.injEq, CRes.eagain.injEq] at h
              rw [← h]
              exact (alloc_bucket_preserves _ _ _ hv).2

/-- With a positive bit count the retry loop fails with the descend
assertion, never the length assertion. -/
theorem insert_loop_pos_bits_no_lm (key : Nat) (data : Option Nat)
    (recOff len f : Nat) (s : TdbState) (bits : Nat) (hb : 0 < bits) :
    insert_loop key data recOff len f s bits ≠ .error .lenMismatch := by
  cases f with
  | zero => simp [insert_loop]
  | succ f =>
    intro h
    simp only [insert_loop, Bind.bind, Except.bind, tdb_htrie_descend,
      if_pos hb] at h
    simp at h

/-- The insert retry loop never trips the length assertion when called
with the configured record length. -/
theorem insert_loop_no_lm (key : Nat) (data : Option Nat) (recOff : Nat) :
    ∀ (fuel len : Nat) (s : TdbState) (bits : Nat), len = s.rec_len →
    insert_loop key data recOff len fuel s bits ≠ .error .lenMismatch := by
  intro fuel
  induction fuel with
  | zero => intro len s bits hlen; simp [insert_loop]
  | succ f ih =>
    intro len s bits hlen h
    simp only [insert_loop, Bind.bind, Except.bind] at h
    split at h
    · rename_i e he
      simp only [Except.error.injEq] at h
      rw [h] at he
      exact descend_no_lm _ _ _ he
    · split at h
      · -- a missing branch: publish a fresh bucket
        split at h
        · rename_i e he
          simp only [Except.error.injEq] at h
          rw [h] at he
          exact insert_new_bckt_no_lm _ _ _ _ _ _ _ hlen he
        · rename_i v hv
          split at h
          · simp at h
          · simp at h
          · rename_i s2
            have hrl2 := insert_new_bckt_eagain_rec_len _ _ _ _ _ _ _ _ hv
            exact ih len s2 _ (by rw [hrl2]; exact hlen) h
      · -- a resolved bucket: claim a slot or burst
        rename_i bits2 boff2 node2 hde
        split at h
        · simp at h
        · rename_i b hbb
          split at h
          · split at h
            · rename_i e he
              simp only [Except.error.injEq] at h
              rw [h] at he
              exact insert_new_rec_no_lm _ _ _ _ _ _ _ _ _ hlen he
            · rename_i v hv
              split at h
              · simp at h
              · by_cases hres : TDB_HTRIE_RESOLVED bits2 = true
                · rw [if_pos hres] at h
                  simp at h
                · rw [if_neg hres] at h
                  by_cases hlt4 : bits2 < TDB_HTRIE_BITS
                  · rw [if_pos hlt4] at h
                    simp at h
                  · rw [if_neg hlt4] at h
                    cases hbp : insert_burst_phase key data recOff len 17 s
                        boff2 bits2 node2 with
                    | error e =>
                      simp only [hbp, Except.error.injEq] at h
                      rw [h] at hbp
                      exact burst_phase_no_lm _ _ _ _ _ _ _ _ _ hbp
                    | ok r =>
                      cases r with
                      | inl out' => simp [hbp] at h
                      | inr p =>
                        obtain ⟨s2, b2⟩ := p
                        simp only [hbp] at h
                        have h42 : (4 : Nat) ≤ bits2 := Nat.le_of_not_lt hlt4
                        have hb2 := burst_phase_inr_bits key data recOff len
                          17 s boff2 bits2 node2 s2 b2 hbp
                        exact insert_loop_pos_bits_no_lm _ _ _ _ _ _ _
                          (by omega) h
          · by_cases hres : TDB_HTRIE_RESOLVED bits2 = true
            · rw [if_pos hres] at h
              simp at h
            · rw [if_neg hres] at h
              by_cases hlt4 : bits2 < TDB_HTRIE_BITS
              · rw [if_pos hlt4] at h
                simp at h
              · rw [if_neg hlt4] at h
                cases hbp : insert_burst_phase key data recOff len 17 s
                    boff2 bits2 node2 with
                | error e =>
                  simp only [hbp, Except.error.injEq] at h
                  rw [h] at hbp
                  exact burst_phase_no_lm _ _ _ _ _ _ _ _ _ hbp
                | ok r =>
                  cases r with
                  | inl out' => simp [hbp] at h
                  | inr p =>
                    obtain ⟨s2, b2⟩ := p
                    simp only [hbp] at h
                    have h42 : (4 : Nat) ≤ bits2 := Nat.le_of_not_lt hlt4
                    have hb2 := burst_phase_inr_bits key data recOff len
                      17 s boff2 bits2 node2 s2 b2 hbp
                    exact insert_loop_pos_bits_no_lm _ _ _ _ _ _ _
                      (by omega) h

/-- On an inplace database a metadata write with a length other than the
configured record length never succeeds: the record constructor trips one
of its assertions first. -/
theorem write_metadata_inplace_ne_ok (rl : Nat) (b : TdbHtrieBucket)
    (key : Nat) (data : Option Nat) (len slot recOff : Nat)
    (b1 : TdbHtrieBucket) (hne : len ≠ rl) :
    __htrie_bckt_write_metadata true rl b key data len slot recOff ≠
      .ok b1 := by
  intro h
  simp only [__htrie_bckt_write_metadata, if_true, Bind.bind,
    Except.bind] at h
  split at h
  · simp at h
  · rename_i r hc
    simp only [tdb_htrie_create_rec_inplace] at hc
    split at hc <;> simp at hc

/-- On an inplace database the slot-claim loop with a mismatched length
never succeeds. -/
theorem insert_new_rec_inplace_ne_ok (rl fuel : Nat) (b : TdbHtrieBucket)
    (key : Nat) (data : Option Nat) (len slot recOff : Nat)
    (res : Option (TdbHtrieBucket × Nat)) (hne : len ≠ rl) :
    __htrie_bckt_insert_new_rec true rl fuel b key data len slot recOff ≠
      .ok res := by
  cases fuel with
  | zero => simp [__htrie_bckt_insert_new_rec]
  | succ f =>
    intro h
    simp only [__htrie_bckt_insert_new_rec, Bind.bind, Except.bind] at h
    split at h
    · simp at h
    · rename_i b1 hw
      exact write_metadata_inplace_ne_ok _ _ _ _ _ _ _ _ hne hw

/-- On an inplace database a fresh-bucket publication with a mismatched
length can only report an allocation failure: any allocated bucket's
metadata write trips an assertion first. -/
theorem insert_new_bckt_inplace_enomem (s : TdbState) (key bits : Nat)
    (node : NodeRef) (data : Option Nat) (len recOff : Nat) (cres : CRes)
    (hinp : s.inplace = true) (hne : len ≠ s.rec_len)
    (h : __htrie_insert_new_bckt s key bits node data len recOff =
      .ok cres) :
    cres = .enomem s := by
  simp only [__htrie_insert_new_bckt, Bind.bind, Except.bind] at h
  split at h
  · simp at h
  · rename_i v hv
    split at h
    · simp only [Except.ok.injEq] at h
      exact h.symm
    · rename_i s' boff
      obtain ⟨hpi, hprl⟩ := alloc_bucket_preserves _ _ _ hv
      split at h
      · simp at h
      · split at h
        · simp at h
        · rename_i b1 hw
          rw [hpi, hinp] at hw
          exact absurd hw (write_metadata_inplace_ne_ok _ _ _ _ _ _ _ _
            (by rw [hprl]; exact hne))

/-- The burst phase of insert always hands back the NULL record
pointer. -/
theorem burst_phase_ret_none (key : Nat) (data : Option Nat)
    (recOff len : Nat) : ∀ (fuel : Nat) (s : TdbState) (boff bits : Nat)
    (node : NodeRef) (out : InsertOut),
    insert_burst_phase key data recOff len fuel s boff bits node =
      .ok (.inl out) → out.ret = none := by
  intro fuel
  induction fuel with
  | zero =>
    intro s boff bits node out h
    simp [insert_burst_phase] at h
  | succ f ih =>
    intro s boff bits node out h
    simp only [insert_burst_phase, Bind.bind, Except.bind] at h
    cases hbr : tdb_htrie_bckt_burst s boff boff key bits node with
    | error e => rw [hbr] at h; exact absurd h (by simp)
    | ok res =>
      cases res with
      | done s2 n =>
        simp only [hbr, Except.ok.injEq, Sum.inl.injEq] at h
        rw [← h]
      | enomem s2 =>
        simp only [hbr, Except.ok.injEq, Sum.inl.injEq] at h
        rw [← h]
      | eagain s2 => simp [hbr] at h
      | again s2 ioff =>
        simp only [hbr] at h
        by_cases hres : TDB_HTRIE_RESOLVED (bits + TDB_HTRIE_BITS) = true
        · rw [if_pos hres] at h
          simp only [Except.ok.injEq, Sum.inl.injEq] at h
          rw [← h]
        · rw [if_neg hres] at h
          exact ih _ _ _ _ _ h

/-- On an inplace database the insert retry loop with a mismatched
length never commits a record and never returns a record handle. -/
theorem insert_loop_inplace_ne_no_store (key : Nat) (data : Option Nat)
    (recOff len fuel : Nat) (s : TdbState) (bits : Nat) (out : InsertOut)
    (hinp : s.inplace = true) (hne : len ≠ s.rec_len)
    (h : insert_loop key data recOff len fuel s bits = .ok out) :
    out.stored = false ∧ out.ret = none := by
  cases fuel with
  | zero => simp [insert_loop] at h
  | succ f =>
    simp only [insert_loop, Bind.bind, Except.bind] at h
    split at h
    · simp at h
    · split at h
      · -- a missing branch: only allocation failure can return
        split at h
        · simp at h
        · rename_i v hv
          have hv2 := insert_new_bckt_inplace_enomem _ _ _ _ _ _ _ _ hinp
            hne hv
          subst hv2
          simp only [Except.ok.injEq] at h
          rw [← h]
          exact ⟨rfl, rfl⟩
      · rename_i bits2 boff2 node2 hde
        split at h
        · simp at h
        · rename_i b hbb
          split at h
          · split at h
            · simp at h
            · rename_i v hv
              rw [hinp] at hv
              exact absurd hv
                (insert_new_rec_inplace_ne_ok _ _ _ _ _ _ _ _ _ hne)
          · by_cases hres : TDB_HTRIE_RESOLVED bits2 = true
            · rw [if_pos hres] at h
              simp only [Except.ok.injEq] at h
              rw [← h]
              exact ⟨rfl, rfl⟩
            · rw [if_neg hres] at h
              by_cases hlt4 : bits2 < TDB_HTRIE_BITS
              · rw [if_pos hlt4] at h
                simp at h
              · rw [if_neg hlt4] at h
                cases hbp : insert_burst_phase key data recOff len 17 s
                    boff2 bits2 node2 with
                | error e => simp [hbp] at h
                | ok r =>
                  cases r with
                  | inl out' =>
                    simp only [hbp, Except.ok.injEq] at h
                    have h1 := burst_phase_stored_false key data recOff len
                      17 s boff2 bits2 node2 out' hbp
                    have h2 := burst_phase_ret_none key data recOff len
                      17 s boff2 bits2 node2 out' hbp
                    rw [h] at h1 h2
                    exact ⟨h1, h2⟩
                  | inr p =>
                    obtain ⟨s2, b2⟩ := p
                    simp only [hbp] at h
                    have h42 : (4 : Nat) ≤ bits2 := Nat.le_of_not_lt hlt4
                    have hb2 := burst_phase_inr_bits key data recOff len
                      17 s boff2 bits2 node2 s2 b2 hbp
                    exact absurd h
                      (insert_loop_pos_bits_ne_ok _ _ _ _ _ _ _ _ (by omega))

/-! Claim theorems: concrete evaluations. -/

/-- C1 (code bug): on the fresh-bucket path a succeeding insert returns
NULL.  Inserting key 5 into the empty trie stores and publishes the
record (`stored = true`, the root slot references the new bucket, and a
subsequent lookup resolves it), yet the returned handle is `none` — the C
code reaches `goto err` after `__htrie_insert_new_bckt` returns 0 —
contradicting the claim (and the function's own documentation) that a
succeeding insert returns a non-NULL record handle. -/
theorem c1_insert_fresh_bucket_success_returns_null :
    tdb_htrie_insert dbEmpty 5 (some 77) 8 = .ok ⟨dbOne, none, true, 8⟩ ∧
    tdb_htrie_lookup dbOne 5 = .ok (some 256) ∧
    (bucketAt dbOne 256).map (fun b =>
      tdb_htrie_bscan_for_rec dbOne b 256 5 0) = some (some (0, 272)) := by
  refine ⟨by decide, by decide, by decide⟩

/-- C2 (code bug): removing the present key 5 from `dbOne` never
completes.  The parent-slot CAS of `tdb_htrie_remove` compares the byte
offset 256 returned by descend against the stored encoded reference
`TDB_O2DI(256) | TDB_HTRIE_DBIT = 2147483650`; the compare fails, the
retry re-enters `tdb_htrie_descend` with `bits = 4` and trips
`BUG_ON(*bits > 0)`.  The record with key 5 stays reachable. -/
theorem c2_remove_never_completes :
    tdb_htrie_remove dbOne 5 = .error .bitsNonzero ∧
    (2147483650 : Nat) ≠ 256 := by
  refine ⟨by decide, by decide⟩

/-- C4 (code bug): `tdb_init_mapping` rejects `root_bits = 8` (and 12),
which the spec's condition — a multiple of 4, at least 4 — accepts; the
code's test `root_bits & ~TDB_HTRIE_BITS` admits only `root_bits = 4`.
All other validation branches behave as claimed. -/
theorem c4_init_rejects_root_bits_8 :
    tdb_init_mapping_ok (2 ^ 30) 8 8 false = false ∧
    spec_init_valid (2 ^ 30) 8 8 false = true ∧
    tdb_init_mapping_ok (2 ^ 30) 12 8 false = false ∧
    tdb_init_mapping_ok (2 ^ 30) 4 8 false = true ∧
    tdb_init_mapping_ok (2 ^ 40) 4 8 false = false ∧
    tdb_init_mapping_ok (2 ^ 30) 4 3000 false = false ∧
    tdb_init_mapping_ok (2 ^ 30) 4 0 true = false ∧
    tdb_init_mapping_ok (2 ^ 30) 4 64 true = false := by
  refine ⟨by decide, by decide, by decide, by decide, by decide, by decide,
    by decide, by decide⟩

/-- C5 counterexample: a bucket produced by a fresh allocation — one of
the operations the claim quantifies over — has `col_map = 0`, so its
most-significant bit is not set: `tdb_htrie_init_bucket` clears the whole
map and no bit is forced. -/
theorem c5_fresh_bucket_msb_clear :
    tdb_htrie_alloc_bucket dbEmpty = .ok (some (dbFresh, 256)) ∧
    (bucketAt dbFresh 256).map (fun b => b.col_map.testBit 63) =
      some false ∧
    (tdb_htrie_init_bucket bOne).col_map.testBit 63 = false := by
  refine ⟨by decide, by decide, by decide⟩

/-- C6 (code bug): for a variable-length database `__htrie_dcache`
short-circuits to freelist 0 for every chunk size, so remove pushes a
512-byte chunk onto freelist 0 (the claim and the spec table say
freelist 2) and even a 4096-byte chunk goes to freelist 0 instead of the
block allocator; the size ladder of the claim is reachable only for
fixed-size databases. -/
theorem c6_varlen_chunks_all_go_to_freelist_0 :
    __htrie_dcache true 512 = some 0 ∧
    __htrie_dcache true 1024 = some 0 ∧
    __htrie_dcache true 2048 = some 0 ∧
    tdb_htrie_free_data true 4096 = .ok (.dcache 0) ∧
    __htrie_dcache false 512 = some 2 := by
  refine ⟨by decide, by decide, by decide, by decide, by decide⟩

/-- C7 (code bug): a burst of the one-record bucket at offset 256 fails
its parent-slot CAS (the compare uses the decoded offset 256 against the
encoded slot value) and the error path then reclaims every reference of
the new index node — including the entry that points at the original
bucket — at the wrongly decoded address `TDB_II2O(TDB_O2DI(256)) = 128`:
the free-bucket queue ends up holding 128, where no bucket lives, even
though no new bucket was allocated during the burst, while the original
bucket at 256 stays referenced by the root. -/
theorem c7_burst_error_path_reclaims_original_bucket_ref :
    tdb_htrie_bckt_burst dbOne 256 256 5 4 none =
      .ok (.eagain dbOneBurstFail) ∧
    dbOneBurstFail.free_bckt_h = 128 ∧
    dbOneBurstFail.free_bckt_t = 128 ∧
    bucketAt dbOneBurstFail 128 = none ∧
    bucketAt dbOneBurstFail 256 = some bOne ∧
    dbOneBurstFail.bckt_supply = dbOne.bckt_supply := by
  refine ⟨by decide, by decide, by decide, by decide, by decide, by decide⟩

/-- C10: when the free-bucket queue is empty and the allocator refuses
the replacement-bucket allocation at the start of `tdb_htrie_remove`, the
function returns at once with the state completely unchanged, and —
returning `void` — gives the caller no indication of the failure. -/
theorem c10_remove_alloc_failure_returns_unchanged (s : TdbState) (key : Nat)
    (hq : s.free_bckt_h = 0) (ha : s.bckt_supply = []) :
    tdb_htrie_remove s key = .ok s := by
  simp [tdb_htrie_remove, tdb_htrie_alloc_bucket, hq, ha, Bind.bind,
    Except.bind]

/-- Witness for C10 at a concrete input. -/
theorem c10_witness :
    dbNoAlloc.free_bckt_h = 0 ∧ dbNoAlloc.bckt_supply = [] ∧
    tdb_htrie_remove dbNoAlloc 5 = .ok dbNoAlloc :=
  ⟨by decide, by decide,
    c10_remove_alloc_failure_returns_unchanged dbNoAlloc 5 (by decide)
      (by decide)⟩

/-- C3 (confirmed): on a well-formed state, every insert that commits a
record (`stored`, i.e. the record's slot metadata was written and the
bucket published — the paths the claim enumerates) leaves the trie such
that `tdb_htrie_lookup` on the inserted key returns the very bucket
handle insert published, and a scan of that bucket finds a record whose
key equals the inserted key. -/
theorem c3_inserted_key_found_by_lookup (s : TdbState) (key : Nat)
    (data : Option Nat) (len : Nat) (out : InsertOut) (hwf : WFins s)
    (h : tdb_htrie_insert s key data len = .ok out)
    (hst : out.stored = true) :
    ∃ boff b, tdb_htrie_lookup out.s key = .ok (some boff) ∧
      bucketAt out.s boff = some b ∧
      (tdb_htrie_bscan_for_rec out.s b boff key 0).isSome = true := by
  unfold tdb_htrie_insert at h
  by_cases hlen : len = 0
  · rw [if_pos hlen] at h
    simp only [Except.ok.injEq] at h
    rw [← h] at hst
    simp at hst
  · rw [if_neg hlen] at h
    by_cases hinp : s.inplace = true
    · rw [if_neg (by simp [hinp])] at h
      exact insert_loop_stored_found key data 0 len 7 s out hwf h hst
    · rw [if_pos hinp] at h
      cases hds : s.data_supply with
      | nil =>
        simp only [tdb_htrie_alloc_data, hds, Except.ok.injEq] at h
        rw [← h] at hst
        simp at hst
      | cons p rest =>
        obtain ⟨off, granted⟩ := p
        simp only [tdb_htrie_alloc_data, hds, Bind.bind, Except.bind] at h
        cases hcr : tdb_htrie_create_rec_data { s with data_supply := rest }
            off data granted with
        | error e =>
          simp only [hcr] at h
          exact absurd h (by simp)
        | ok s2 =>
          simp only [hcr] at h
          obtain ⟨hcro, hcrb, hcrk, hcri, hcrl, hcrs, hcrf⟩ :=
            create_rec_data_preserves _ _ _ _ _ hcr
          have hwf2 : WFins s2 :=
            wfins_congr s s2 hcro hcrb hcrk hcrs hcrf hwf
          exact insert_loop_stored_found key data off granted 7 s2 out hwf2
            h hst

/-- Witness for C3: inserting key 5 into the well-formed empty database
commits a record, and the lookup round-trip finds it. -/
theorem c3_witness :
    ∃ boff b, tdb_htrie_lookup dbOne 5 = .ok (some boff) ∧
      bucketAt dbOne boff = some b ∧
      (tdb_htrie_bscan_for_rec dbOne b boff 5 0).isSome = true :=
  c3_inserted_key_found_by_lookup dbEmpty 5 (some 77) 8
    ⟨dbOne, none, true, 8⟩ (by decide) (by decide) rfl

/-- C9 (confirmed): on an inplace database, insert has the unstated
precondition `*len = rec_len`.  (i) The record constructor trips its
length assertion on any clean slot when the length differs.  (ii) With a
mismatched length no insert call ever commits a record or returns a
record handle — any completed call is a NULL return from a path (empty
data, allocation failure) that never reached the constructor, everything
else trips an assertion.  (iii) Under the precondition the length
assertion is unreachable in the whole insert path. -/
theorem c9_inplace_insert_requires_rec_len (s : TdbState) (key len : Nat)
    (data : Option Nat) (hinp : s.inplace = true) :
    (∀ prior : TdbRec, prior.key = 0 → len ≠ s.rec_len →
      tdb_htrie_create_rec_inplace s.rec_len prior key data len =
        .error .lenMismatch) ∧
    (len ≠ s.rec_len → ∀ out, tdb_htrie_insert s key data len = .ok out →
      out.stored = false ∧ out.ret = none) ∧
    (len = s.rec_len →
      tdb_htrie_insert s key data len ≠ .error .lenMismatch) := by
  refine ⟨?_, ?_, ?_⟩
  · intro prior hp hne
    unfold tdb_htrie_create_rec_inplace
    rw [if_neg (by simp [hp]), if_pos hne]
  · intro hne out h
    unfold tdb_htrie_insert at h
    by_cases hlen : len = 0
    · rw [if_pos hlen] at h
      simp only [Except.ok.injEq] at h
      rw [← h]
      exact ⟨rfl, rfl⟩
    · rw [if_neg hlen, if_neg (by simp [hinp])] at h
      exact insert_loop_inplace_ne_no_store key data 0 len 8 s 0 out hinp
        hne h
  · intro hlen h
    unfold tdb_htrie_insert at h
    by_cases hl0 : len = 0
    · rw [if_pos hl0] at h
      exact absurd h (by simp)
    · rw [if_neg hl0, if_neg (by simp [hinp])] at h
      exact insert_loop_no_lm key data 0 8 len s 0 hlen h

/-- Witness for C9: on the inplace database `dbEmpty` (`rec_len = 8`) a
call with `*len = 7` trips the length assertion rather than returning
NULL. -/
theorem c9_witness :
    ((∀ prior : TdbRec, prior.key = 0 → (7 : Nat) ≠ dbEmpty.rec_len →
      tdb_htrie_create_rec_inplace dbEmpty.rec_len prior 5 (some 77) 7 =
        .error .lenMismatch) ∧
    ((7 : Nat) ≠ dbEmpty.rec_len → ∀ out,
      tdb_htrie_insert dbEmpty 5 (some 77) 7 = .ok out →
      out.stored = false ∧ out.ret = none) ∧
    ((7 : Nat) = dbEmpty.rec_len →
      tdb_htrie_insert dbEmpty 5 (some 77) 7 ≠ .error .lenMismatch)) ∧
    tdb_htrie_insert dbEmpty 5 (some 77) 7 = .error .lenMismatch :=
  ⟨c9_inplace_insert_requires_rec_len dbEmpty 5 7 (some 77) (by decide),
   by decide⟩

end Htrie
